import Mathlib

/-!
# Verification of the fixed-depth chess search engine and evaluator

Shallow embedding of the repository's search core (Engine::getBestMove and
Engine::minimax) and of the static evaluator (Evaluator::evaluate and its
heuristic terms), together with proofs and refutations of the frozen claims
about them.

The board / move-generation collaborator is external to the repository, so it
is kept abstract: the search is parametric in a game interface supplying
legal moves, move application, check status and the leaf evaluation, and the
evaluator is parametric in a board snapshot supplying piece lookup, attack
queries and pseudo-legal move generation, exactly the queries the source
consumes.
-/

namespace Chess

/-- The two piece colors, as in the source's Color enum. -/
inductive Color where
  | WHITE
  | BLACK
deriving DecidableEq

/-- C++ INT_MIN, the value of std::numeric_limits<int>::min() used by the
search as minus infinity. -/
def INT_MIN : Int := -2147483648

/-- C++ INT_MAX, the value of std::numeric_limits<int>::max() used by the
search as plus infinity. -/
def INT_MAX : Int := 2147483647

/-!
## The search core (src/unnamed/part_000, Engine)

The board collaborator is abstract: a GameSpec provides exactly the queries
Engine::minimax and Engine::getBestMove make on a Board value.  Positions are
an opaque type, moves are an opaque type.
-/

/-- The interface the engine consumes from the board collaborator:
generateLegalMoves, makeMove, isInCheck, getSideToMove, and the evaluator
entry point evaluator.evaluate seen as an opaque leaf score. -/
structure GameSpec (β : Type) (μ : Type) where
  legalMoves : β → List μ
  makeMove : β → μ → β
  inCheck : β → Bool
  sideToMove : β → Color
  evalBoard : β → Int

variable {β μ : Type}

/-- The maximizing inner loop of Engine::minimax: iterate the legal moves,
score each child with the given step function (the recursive minimax call at
one less depth), track the running maximum, raise alpha, and break out of the
loop as soon as beta <= alpha.  The accumulators are maxEval and alpha. -/
def abMaxLoop (step : μ → Int → Int → Int) (beta : Int) :
    List μ → Int → Int → Int
  | [], maxEval, _ => maxEval
  | mv :: rest, maxEval, alpha =>
    let e := step mv alpha beta
    let maxEval' := max maxEval e
    let alpha' := max alpha e
    if beta ≤ alpha' then maxEval' else abMaxLoop step beta rest maxEval' alpha'

/-- The minimizing inner loop of Engine::minimax: mirror image of abMaxLoop,
tracking the running minimum and lowering beta, cutting on beta <= alpha.
The accumulators are minEval and beta. -/
def abMinLoop (step : μ → Int → Int → Int) (alpha : Int) :
    List μ → Int → Int → Int
  | [], minEval, _ => minEval
  | mv :: rest, minEval, beta =>
    let e := step mv alpha beta
    let minEval' := min minEval e
    let beta' := min beta e
    if beta' ≤ alpha then minEval' else abMinLoop step alpha rest minEval' beta'

/-- Engine::minimax.  The depth argument is the remaining search depth (a
non-negative int in every reachable call, so modelled as a Nat used as
structural fuel); maxD is the engine's maxDepth field.  Checked in source
order: depth == 0 returns the static evaluation; no legal moves returns the
checkmate score maximizing ? -20000 + (maxDepth - depth)
: 20000 - (maxDepth - depth) when in check and 0 (stalemate) otherwise;
otherwise the maximizing or minimizing alpha-beta loop over the legal moves. -/
def minimax (G : GameSpec β μ) (maxD : Nat) :
    Nat → β → Int → Int → Bool → Int
  | 0, b, _, _, _ => G.evalBoard b
  | d + 1, b, alpha, beta, maximizing =>
    let moves := G.legalMoves b
    if moves.isEmpty then
      if G.inCheck b then
        if maximizing then -20000 + ((maxD : Int) - ((d + 1 : Nat) : Int))
        else 20000 - ((maxD : Int) - ((d + 1 : Nat) : Int))
      else 0
    else
      if maximizing then
        abMaxLoop (fun mv a bt => minimax G maxD d (G.makeMove b mv) a bt false)
          beta moves INT_MIN alpha
      else
        abMinLoop (fun mv a bt => minimax G maxD d (G.makeMove b mv) a bt true)
          alpha moves INT_MAX beta

/-- The same search with pruning disabled: alpha and beta held constant at
-infinity and +infinity throughout, so the cutoff test beta <= alpha never
fires and each node folds over all of its children; the running maximum
(resp. minimum) still starts at INT_MIN (resp. INT_MAX) as in the source. -/
def pureMinimax (G : GameSpec β μ) (maxD : Nat) : Nat → β → Bool → Int
  | 0, b, _ => G.evalBoard b
  | d + 1, b, maximizing =>
    let moves := G.legalMoves b
    if moves.isEmpty then
      if G.inCheck b then
        if maximizing then -20000 + ((maxD : Int) - ((d + 1 : Nat) : Int))
        else 20000 - ((maxD : Int) - ((d + 1 : Nat) : Int))
      else 0
    else
      if maximizing then
        ((moves.map fun mv => pureMinimax G maxD d (G.makeMove b mv) false)).foldl max INT_MIN
      else
        ((moves.map fun mv => pureMinimax G maxD d (G.makeMove b mv) true)).foldl min INT_MAX

/-!
### Fail-soft alpha-beta correctness infrastructure

The loops above are fail-soft: they return the running extremum, not a value
clamped to the window.  The classical three-case invariant relates the loop
result to the pruning-free value: a result at or below alpha is an upper
bound on the true value, a result at or beyond beta is a lower bound, and a
result strictly inside the window is the true value.
-/

lemma le_foldl_max (l : List Int) : ∀ m : Int, m ≤ l.foldl max m := by
  induction l with
  | nil => intro m; simp
  | cons x xs ih => intro m; exact le_trans (le_max_left m x) (ih (max m x))

lemma foldl_max_comm (l : List Int) :
    ∀ m x : Int, l.foldl max (max m x) = max (l.foldl max m) x := by
  induction l with
  | nil => intro m x; simp
  | cons y ys ih =>
    intro m x
    simp only [List.foldl]
    rw [show max (max m x) y = max (max m y) x by
      rw [max_assoc, max_comm x y, ← max_assoc]]
    exact ih (max m y) x

lemma foldl_max_le (l : List Int) :
    ∀ m c : Int, m ≤ c → (∀ x ∈ l, x ≤ c) → l.foldl max m ≤ c := by
  induction l with
  | nil => intro m c hm _; simpa using hm
  | cons y ys ih =>
    intro m c hm hall
    simp only [List.foldl]
    exact ih (max m y) c (max_le hm (hall y (by simp))) fun x hx => hall x (by simp [hx])

lemma foldl_min_le (l : List Int) : ∀ m : Int, l.foldl min m ≤ m := by
  induction l with
  | nil => intro m; simp
  | cons x xs ih => intro m; exact le_trans (ih (min m x)) (min_le_left m x)

lemma foldl_min_comm (l : List Int) :
    ∀ m x : Int, l.foldl min (min m x) = min (l.foldl min m) x := by
  induction l with
  | nil => intro m x; simp
  | cons y ys ih =>
    intro m x
    simp only [List.foldl]
    rw [show min (min m x) y = min (min m y) x by
      rw [min_assoc, min_comm x y, ← min_assoc]]
    exact ih (min m y) x

lemma le_foldl_min (l : List Int) :
    ∀ m c : Int, c ≤ m → (∀ x ∈ l, c ≤ x) → c ≤ l.foldl min m := by
  induction l with
  | nil => intro m c hm _; simpa using hm
  | cons y ys ih =>
    intro m c hm hall
    simp only [List.foldl]
    exact ih (min m y) c (le_min hm (hall y (by simp))) fun x hx => hall x (by simp [hx])

/-- Three-case fail-soft invariant for the maximizing loop, given the same
invariant for every child call (the recursive minimax at one less depth).
m is the running maximum, a the running alpha, and the pruning-free value of
the loop is the fold of max over the children's pruning-free values. -/
lemma abMaxLoop_spec (step : μ → Int → Int → Int) (v : μ → Int) (beta : Int)
    (hchild : ∀ mv a, INT_MIN ≤ a → a < beta →
      (v mv ≤ a → step mv a beta ≤ a ∧ v mv ≤ step mv a beta) ∧
      (beta ≤ v mv → beta ≤ step mv a beta ∧ step mv a beta ≤ v mv) ∧
      (a < v mv → v mv < beta → step mv a beta = v mv)) :
    ∀ (ms : List μ) (m a : Int), INT_MIN ≤ a → m ≤ a → a < beta →
      ((ms.map v).foldl max m ≤ a →
        abMaxLoop step beta ms m a ≤ a ∧ (ms.map v).foldl max m ≤ abMaxLoop step beta ms m a) ∧
      (beta ≤ (ms.map v).foldl max m →
        beta ≤ abMaxLoop step beta ms m a ∧ abMaxLoop step beta ms m a ≤ (ms.map v).foldl max m) ∧
      (a < (ms.map v).foldl max m → (ms.map v).foldl max m < beta →
        abMaxLoop step beta ms m a = (ms.map v).foldl max m) := by
  intro ms
  induction ms with
  | nil =>
    intro m a hINT hma hab
    refine ⟨fun h => ⟨?_, ?_⟩, fun h => ⟨?_, ?_⟩, fun h1 h2 => ?_⟩ <;>
      simp only [List.map_nil, List.foldl_nil, abMaxLoop] at * <;> omega
  | cons mv rest ih =>
    intro m a hINT hma hab
    obtain ⟨hA, hB, hC⟩ := hchild mv a hINT hab
    set e := step mv a beta with he
    set c := v mv with hc
    have hw : ((mv :: rest).map v).foldl max m = max ((rest.map v).foldl max m) c := by
      simp only [List.map_cons, List.foldl_cons]
      exact foldl_max_comm (rest.map v) m c
    set R := (rest.map v).foldl max m with hR
    have hmR : m ≤ R := le_foldl_max (rest.map v) m
    rcases le_or_lt c a with hca | hac
    · -- child value at or below alpha: fail-low child, alpha unchanged
      obtain ⟨hea, hce⟩ := hA hca
      have hstep : abMaxLoop step beta (mv :: rest) m a =
          abMaxLoop step beta rest (max m e) a := by
        simp only [abMaxLoop]
        have h1 : max a e = a := max_eq_left hea
        rw [h1, if_neg (by omega)]
      rw [hstep, hw]
      obtain ⟨ih1, ih2, ih3⟩ := ih (max m e) a hINT (max_le hma hea) hab
      have hwr : (rest.map v).foldl max (max m e) = max R e := foldl_max_comm (rest.map v) m e
      rw [hwr] at ih1 ih2 ih3
      refine ⟨fun h => ?_, fun h => ?_, fun h1 h2 => ?_⟩
      · have hRa : R ≤ a := le_trans (le_max_left R c) h
        obtain ⟨g1, g2⟩ := ih1 (by omega)
        exact ⟨g1, by omega⟩
      · have hbR : beta ≤ R := by
          rcases max_cases R c with ⟨h1, _⟩ | ⟨h1, _⟩ <;> omega
        obtain ⟨g1, g2⟩ := ih2 (by omega)
        constructor
        · exact g1
        · have : max R e = R := max_eq_left (by omega)
          omega
      · have hwR : max R c = R := by
          rcases max_cases R c with ⟨h1, _⟩ | ⟨h1, _⟩ <;> omega
        rw [hwR] at h1 h2 ⊢
        have : max R e = R := max_eq_left (by omega)
        rw [this] at ih3
        exact ih3 h1 h2
    · rcases lt_or_le c beta with hcb | hbc
      · -- child value strictly inside the window: exact child
        have hec : e = c := hC hac hcb
        have hstep : abMaxLoop step beta (mv :: rest) m a =
            abMaxLoop step beta rest (max m e) c := by
          simp only [abMaxLoop]
          have h1 : max a e = c := by rw [hec]; exact max_eq_right (le_of_lt hac)
          rw [h1, if_neg (by omega)]
        rw [hstep, hw, hec]
        obtain ⟨ih1, ih2, ih3⟩ := ih (max m c) c (by omega) (by omega) hcb
        have hwr : (rest.map v).foldl max (max m c) = max R c := foldl_max_comm (rest.map v) m c
        rw [hwr] at ih1 ih2 ih3
        have hcw : c ≤ max R c := le_max_right R c
        refine ⟨fun h => ?_, fun h => ?_, fun h1 h2 => ?_⟩
        · omega
        · exact ih2 h
        · rcases le_or_lt (max R c) c with hwc | hcw'
          · have hwc' : max R c = c := le_antisymm hwc hcw
            obtain ⟨g1, g2⟩ := ih1 (by omega)
            omega
          · exact ih3 hcw' h2
      · -- child value at or beyond beta: cutoff
        obtain ⟨hbe, hec⟩ := hB hbc
        have hstep : abMaxLoop step beta (mv :: rest) m a = max m e := by
          simp only [abMaxLoop]
          rw [if_pos (le_trans hbe (le_max_right a e))]
        rw [hstep, hw]
        have hbw : beta ≤ max R c := le_trans hbc (le_max_right R c)
        refine ⟨fun h => ?_, fun h => ?_, fun h1 h2 => ?_⟩
        · omega
        · refine ⟨le_trans hbe (le_max_right m e), ?_⟩
          have h1 : m ≤ max R c := le_trans hmR (le_max_left R c)
          have h2 : e ≤ max R c := le_trans hec (le_max_right R c)
          exact max_le h1 h2
        · omega

/-- Three-case fail-soft invariant for the minimizing loop: the mirror image
of abMaxLoop_spec, with m the running minimum and bt the running beta. -/
lemma abMinLoop_spec (step : μ → Int → Int → Int) (v : μ → Int) (alpha : Int)
    (hchild : ∀ mv bt, bt ≤ INT_MAX → alpha < bt →
      (bt ≤ v mv → bt ≤ step mv alpha bt ∧ step mv alpha bt ≤ v mv) ∧
      (v mv ≤ alpha → step mv alpha bt ≤ alpha ∧ v mv ≤ step mv alpha bt) ∧
      (alpha < v mv → v mv < bt → step mv alpha bt = v mv)) :
    ∀ (ms : List μ) (m bt : Int), bt ≤ INT_MAX → bt ≤ m → alpha < bt →
      (bt ≤ (ms.map v).foldl min m →
        bt ≤ abMinLoop step alpha ms m bt ∧ abMinLoop step alpha ms m bt ≤ (ms.map v).foldl min m) ∧
      ((ms.map v).foldl min m ≤ alpha →
        abMinLoop step alpha ms m bt ≤ alpha ∧ (ms.map v).foldl min m ≤ abMinLoop step alpha ms m bt) ∧
      (alpha < (ms.map v).foldl min m → (ms.map v).foldl min m < bt →
        abMinLoop step alpha ms m bt = (ms.map v).foldl min m) := by
  intro ms
  induction ms with
  | nil =>
    intro m bt hINT hbm hab
    refine ⟨fun h => ⟨?_, ?_⟩, fun h => ⟨?_, ?_⟩, fun h1 h2 => ?_⟩ <;>
      simp only [List.map_nil, List.foldl_nil, abMinLoop] at * <;> omega
  | cons mv rest ih =>
    intro m bt hINT hbm hab
    obtain ⟨hA, hB, hC⟩ := hchild mv bt hINT hab
    set e := step mv alpha bt with he
    set c := v mv with hc
    have hw : ((mv :: rest).map v).foldl min m = min ((rest.map v).foldl min m) c := by
      simp only [List.map_cons, List.foldl_cons]
      exact foldl_min_comm (rest.map v) m c
    set R := (rest.map v).foldl min m with hR
    have hmR : R ≤ m := foldl_min_le (rest.map v) m
    rcases le_or_lt bt c with hca | hac
    · -- child value at or beyond beta: fail-high child, beta unchanged
      obtain ⟨hea, hce⟩ := hA hca
      have hstep : abMinLoop step alpha (mv :: rest) m bt =
          abMinLoop step alpha rest (min m e) bt := by
        simp only [abMinLoop]
        have h1 : min bt e = bt := min_eq_left hea
        rw [h1, if_neg (by omega)]
      rw [hstep, hw]
      obtain ⟨ih1, ih2, ih3⟩ := ih (min m e) bt hINT (le_min hbm hea) hab
      have hwr : (rest.map v).foldl min (min m e) = min R e := foldl_min_comm (rest.map v) m e
      rw [hwr] at ih1 ih2 ih3
      refine ⟨fun h => ?_, fun h => ?_, fun h1 h2 => ?_⟩
      · have hRa : bt ≤ R := le_trans h (min_le_left R c)
        obtain ⟨g1, g2⟩ := ih1 (by omega)
        exact ⟨g1, by omega⟩
      · have hbR : R ≤ alpha := by
          rcases min_cases R c with ⟨h1, _⟩ | ⟨h1, _⟩ <;> omega
        obtain ⟨g1, g2⟩ := ih2 (by omega)
        constructor
        · exact g1
        · have : min R e = R := min_eq_left (by omega)
          omega
      · have hwR : min R c = R := by
          rcases min_cases R c with ⟨h1, _⟩ | ⟨h1, _⟩ <;> omega
        rw [hwR] at h1 h2 ⊢
        have : min R e = R := min_eq_left (by omega)
        rw [this] at ih3
        exact ih3 h1 h2
    · rcases lt_or_le alpha c with hcb | hbc
      · -- child value strictly inside the window: exact child
        have hec : e = c := hC hcb hac
        have hstep : abMinLoop step alpha (mv :: rest) m bt =
            abMinLoop step alpha rest (min m e) c := by
          simp only [abMinLoop]
          have h1 : min bt e = c := by rw [hec]; exact min_eq_right (le_of_lt hac)
          rw [h1, if_neg (by omega)]
        rw [hstep, hw, hec]
        obtain ⟨ih1, ih2, ih3⟩ := ih (min m c) c (by omega) (by omega) hcb
        have hwr : (rest.map v).foldl min (min m c) = min R c := foldl_min_comm (rest.map v) m c
        rw [hwr] at ih1 ih2 ih3
        have hcw : min R c ≤ c := min_le_right R c
        refine ⟨fun h => ?_, fun h => ?_, fun h1 h2 => ?_⟩
        · omega
        · exact ih2 h
        · rcases le_or_lt c (min R c) with hwc | hcw'
          · have hwc' : min R c = c := le_antisymm hcw hwc
            obtain ⟨g1, g2⟩ := ih1 (by omega)
            omega
          · exact ih3 h1 hcw'
      · -- child value at or below alpha: cutoff
        obtain ⟨hbe, hec⟩ := hB hbc
        have hstep : abMinLoop step alpha (mv :: rest) m bt = min m e := by
          simp only [abMinLoop]
          rw [if_pos (le_trans (min_le_right bt e) hbe)]
        rw [hstep, hw]
        have hbw : min R c ≤ alpha := le_trans (min_le_right R c) hbc
        refine ⟨fun h => ?_, fun h => ?_, fun h1 h2 => ?_⟩
        · omega
        · refine ⟨le_trans (min_le_right m e) hbe, ?_⟩
          have h1 : min R c ≤ m := le_trans (min_le_left R c) hmR
          have h2 : min R c ≤ e := le_trans (min_le_right R c) hec
          exact le_min h1 h2
        · omega

/-- Three-case fail-soft invariant for minimax against pureMinimax, by
induction on the depth, at every window INT_MIN <= alpha < beta <= INT_MAX. -/
lemma minimax_threeCases (G : GameSpec β μ) (maxD : Nat) :
    ∀ (d : Nat) (b : β) (alpha beta : Int) (mx : Bool),
      INT_MIN ≤ alpha → beta ≤ INT_MAX → alpha < beta →
      (pureMinimax G maxD d b mx ≤ alpha →
        minimax G maxD d b alpha beta mx ≤ alpha ∧
        pureMinimax G maxD d b mx ≤ minimax G maxD d b alpha beta mx) ∧
      (beta ≤ pureMinimax G maxD d b mx →
        beta ≤ minimax G maxD d b alpha beta mx ∧
        minimax G maxD d b alpha beta mx ≤ pureMinimax G maxD d b mx) ∧
      (alpha < pureMinimax G maxD d b mx → pureMinimax G maxD d b mx < beta →
        minimax G maxD d b alpha beta mx = pureMinimax G maxD d b mx) := by
  intro d
  induction d with
  | zero =>
    intro b alpha beta mx _ _ _
    simp only [minimax, pureMinimax]
    exact ⟨fun h => ⟨h, le_refl _⟩, fun h => ⟨h, le_refl _⟩, fun _ _ => by trivial⟩
  | succ d ih =>
    intro b alpha beta mx ha hb hab
    simp only [minimax, pureMinimax]
    by_cases hemp : (G.legalMoves b).isEmpty
    · simp only [hemp, if_true]
      exact ⟨fun h => ⟨h, le_refl _⟩, fun h => ⟨h, le_refl _⟩, fun _ _ => by trivial⟩
    · simp only [hemp, if_false]
      cases mx with
      | true =>
        simp only [if_true]
        exact (abMaxLoop_spec
          (fun mv a bt => minimax G maxD d (G.makeMove b mv) a bt false)
          (fun mv => pureMinimax G maxD d (G.makeMove b mv) false) beta
          (fun mv a ha' hab' => ih (G.makeMove b mv) a beta false ha' hb hab')
          (G.legalMoves b) INT_MIN alpha ha ha hab)
      | false =>
        simp only [Bool.false_eq_true, if_false]
        have h := (abMinLoop_spec
          (fun mv a bt => minimax G maxD d (G.makeMove b mv) a bt true)
          (fun mv => pureMinimax G maxD d (G.makeMove b mv) true) alpha
          (fun mv bt hbt' hab' =>
            ⟨(ih (G.makeMove b mv) alpha bt true ha hbt' hab').2.1,
             (ih (G.makeMove b mv) alpha bt true ha hbt' hab').1,
             (ih (G.makeMove b mv) alpha bt true ha hbt' hab').2.2⟩)
          (G.legalMoves b) INT_MAX beta hb hb hab)
        exact ⟨h.2.1, h.1, h.2.2⟩

/-- The pruning-free search value stays inside the int range, provided the
static evaluation does and the mate scores cannot overflow at the given
maximum depth and fuel. -/
lemma pureMinimax_bound (G : GameSpec β μ) (maxD : Nat)
    (hev : ∀ b : β, INT_MIN ≤ G.evalBoard b ∧ G.evalBoard b ≤ INT_MAX) :
    ∀ (d : Nat) (b : β) (mx : Bool), (maxD : Int) + d + 20001 ≤ INT_MAX →
      INT_MIN ≤ pureMinimax G maxD d b mx ∧ pureMinimax G maxD d b mx ≤ INT_MAX := by
  intro d
  induction d with
  | zero => intro b mx _; exact hev b
  | succ d ih =>
    intro b mx hM
    have hM' : (maxD : Int) + d + 20001 ≤ INT_MAX := by omega
    have hmd : (0 : Int) ≤ (maxD : Int) := Int.natCast_nonneg maxD
    simp only [pureMinimax]
    by_cases hemp : (G.legalMoves b).isEmpty
    · rw [if_pos hemp]
      by_cases hchk : G.inCheck b
      · rw [if_pos hchk]
        have hM2 : (maxD : Int) + (d : Int) + 20001 ≤ 2147483647 := by
          simpa [INT_MAX] using hM'
        cases mx
        · rw [if_neg (by simp)]
          simp only [INT_MIN, INT_MAX]
          push_cast
          omega
        · rw [if_pos rfl]
          simp only [INT_MIN, INT_MAX]
          push_cast
          omega
      · rw [if_neg hchk]
        simp only [INT_MIN, INT_MAX]
        omega
    · simp only [hemp, if_false]
      cases mx with
      | true =>
        simp only [if_true]
        constructor
        · exact le_foldl_max _ INT_MIN
        · refine foldl_max_le _ INT_MIN INT_MAX (by decide) ?_
          intro x hx
          obtain ⟨mv, _, rfl⟩ := List.mem_map.mp hx
          exact (ih (G.makeMove b mv) false hM').2
      | false =>
        simp only [Bool.false_eq_true, if_false]
        constructor
        · refine le_foldl_min _ INT_MAX INT_MIN (by decide) ?_
          intro x hx
          obtain ⟨mv, _, rfl⟩ := List.mem_map.mp hx
          exact (ih (G.makeMove b mv) true hM').1
        · exact foldl_min_le _ INT_MAX

/-- At the root window, fail-soft alpha-beta coincides with the
pruning-free minimax value. -/
lemma minimax_full_window_eq (G : GameSpec β μ) (maxD : Nat)
    (hev : ∀ b : β, INT_MIN ≤ G.evalBoard b ∧ G.evalBoard b ≤ INT_MAX) :
    ∀ (d : Nat) (b : β) (mx : Bool), (maxD : Int) + d + 20001 ≤ INT_MAX →
      minimax G maxD d b INT_MIN INT_MAX mx = pureMinimax G maxD d b mx := by
  intro d b mx hM
  have hlt : INT_MIN < INT_MAX := by simp [INT_MIN, INT_MAX]
  obtain ⟨c1, c2, c3⟩ :=
    minimax_threeCases G maxD d b INT_MIN INT_MAX mx (le_refl _) (le_refl _) hlt
  obtain ⟨b1, b2⟩ := pureMinimax_bound G maxD hev d b mx hM
  rcases le_or_lt (pureMinimax G maxD d b mx) INT_MIN with h | h
  · obtain ⟨g1, g2⟩ := c1 h; omega
  · rcases le_or_lt INT_MAX (pureMinimax G maxD d b mx) with h' | h'
    · obtain ⟨g1, g2⟩ := c2 h'; omega
    · exact c3 h h'

/-!
### Node counting and the root move loop

Engine::minimax increments the nodesSearched member on every call.  The side
effect is split out as a pure count that follows exactly the same control
flow (the same cutoffs) as the score computation.
-/

/-- Nodes visited by the maximizing loop: each step contributes the child's
node count; the loop stops after the step whose score raises alpha to beta. -/
def abMaxLoopNodes (step : μ → Int → Int → Int) (stepNodes : μ → Int → Int → Nat)
    (beta : Int) : List μ → Int → Nat
  | [], _ => 0
  | mv :: rest, alpha =>
    let e := step mv alpha beta
    let n := stepNodes mv alpha beta
    let alpha' := max alpha e
    if beta ≤ alpha' then n else n + abMaxLoopNodes step stepNodes beta rest alpha'

/-- Nodes visited by the minimizing loop, mirror image of abMaxLoopNodes. -/
def abMinLoopNodes (step : μ → Int → Int → Int) (stepNodes : μ → Int → Int → Nat)
    (alpha : Int) : List μ → Int → Nat
  | [], _ => 0
  | mv :: rest, beta =>
    let e := step mv alpha beta
    let n := stepNodes mv alpha beta
    let beta' := min beta e
    if beta' ≤ alpha then n else n + abMinLoopNodes step stepNodes alpha rest beta'

/-- The number of times Engine::minimax runs (and hence increments
nodesSearched) when called with the given arguments: one for the call itself
plus the children actually explored before any alpha-beta cutoff. -/
def minimaxNodes (G : GameSpec β μ) (maxD : Nat) :
    Nat → β → Int → Int → Bool → Nat
  | 0, _, _, _, _ => 1
  | d + 1, b, alpha, beta, maximizing =>
    let moves := G.legalMoves b
    if moves.isEmpty then 1
    else if maximizing then
      1 + abMaxLoopNodes
        (fun mv a bt => minimax G maxD d (G.makeMove b mv) a bt false)
        (fun mv a bt => minimaxNodes G maxD d (G.makeMove b mv) a bt false)
        beta moves alpha
    else
      1 + abMinLoopNodes
        (fun mv a bt => minimax G maxD d (G.makeMove b mv) a bt true)
        (fun mv a bt => minimaxNodes G maxD d (G.makeMove b mv) a bt true)
        alpha moves beta

/-- Every minimax call increments the node counter at least once. -/
lemma minimaxNodes_pos (G : GameSpec β μ) (maxD : Nat) :
    ∀ (d : Nat) (b : β) (alpha beta : Int) (mx : Bool),
      1 ≤ minimaxNodes G maxD d b alpha beta mx := by
  intro d b alpha beta mx
  cases d with
  | zero => simp [minimaxNodes]
  | succ d =>
    simp only [minimaxNodes]
    split
    · omega
    · split <;> omega

/-- One line written to std::cout by Engine::getBestMove, as data: the
"Nodes searched" line, the "Time taken" line (the measured milliseconds are
an input of the model, wall time being external to the core), and the
"Best move" line carrying the move whose algebraic notation is printed
together with the winning score. -/
inductive OutLine (μ : Type) where
  | nodesLine (n : Nat)
  | timeLine (ms : Int)
  | bestLine (mv : μ) (score : Int)
deriving DecidableEq

/-- The observable outcome of one Engine::getBestMove call: the returned
move (none models the default-constructed sentinel Move()), the value of the
nodesSearched member afterwards (readable through getNodesSearched), and the
lines written to the hardwired std::cout stream, in order. -/
structure EngineResult (μ : Type) where
  retMove : Option μ
  nodesSearched : Nat
  cout : List (OutLine μ)
deriving DecidableEq

/-- The score Engine::getBestMove computes for one root move: minimax on the
resulting position at depth maxDepth - 1, full window, with the opposite
side as the maximizing flag (the source passes getSideToMove() != WHITE). -/
def rootScore (G : GameSpec β μ) (maxD : Nat) (b : β) (white : Bool) (mv : μ) : Int :=
  minimax G maxD (maxD - 1) (G.makeMove b mv) INT_MIN INT_MAX (!white)

/-- The nodes searched while scoring one root move. -/
def rootNodes (G : GameSpec β μ) (maxD : Nat) (b : β) (white : Bool) (mv : μ) : Nat :=
  minimaxNodes G maxD (maxD - 1) (G.makeMove b mv) INT_MIN INT_MAX (!white)

/-- The root loop of Engine::getBestMove: for each legal move in generation
order, score it, and replace the best-so-far exactly when the strict
comparison fires (> for a WHITE root, < for a BLACK root).  The accumulators
are bestMove, bestScore and the node counter. -/
def bestLoop (G : GameSpec β μ) (maxD : Nat) (b : β) (white : Bool) :
    List μ → μ → Int → Nat → μ × Int × Nat
  | [], best, bs, n => (best, bs, n)
  | mv :: rest, best, bs, n =>
    let score := rootScore G maxD b white mv
    let n' := n + rootNodes G maxD b white mv
    if (white = true ∧ bs < score) ∨ (white = false ∧ score < bs) then
      bestLoop G maxD b white rest mv score n'
    else
      bestLoop G maxD b white rest best bs n'

/-- Engine::getBestMove.  Resets the node counter, asks the collaborator for
the legal moves, returns the sentinel with an empty output trace when there
are none, and otherwise runs the root loop seeded with the first legal move
and INT_MIN (WHITE root) or INT_MAX (BLACK root), then writes the three
diagnostic lines to std::cout and returns the selected move. -/
def getBestMove (G : GameSpec β μ) (maxD : Nat) (elapsedMs : Int) (b : β) :
    EngineResult μ :=
  match G.legalMoves b with
  | [] => ⟨none, 0, []⟩
  | m0 :: _ =>
    let white := G.sideToMove b == Color.WHITE
    let init : Int := if white then INT_MIN else INT_MAX
    let r := bestLoop G maxD b white (G.legalMoves b) m0 init 0
    ⟨some r.1, r.2.2,
      [OutLine.nodesLine r.2.2, OutLine.timeLine elapsedMs,
       OutLine.bestLine r.1 r.2.1]⟩

lemma foldl_max_ge_mem (l : List Int) :
    ∀ (m x : Int), x ∈ l → x ≤ l.foldl max m := by
  induction l with
  | nil => intro m x hx; simp at hx
  | cons y ys ih =>
    intro m x hx
    simp only [List.foldl]
    rcases List.mem_cons.mp hx with h | h
    · subst h; exact le_trans (le_max_right m x) (le_foldl_max ys (max m x))
    · exact ih (max m y) x h

lemma foldl_min_le_mem (l : List Int) :
    ∀ (m x : Int), x ∈ l → l.foldl min m ≤ x := by
  induction l with
  | nil => intro m x hx; simp at hx
  | cons y ys ih =>
    intro m x hx
    simp only [List.foldl]
    rcases List.mem_cons.mp hx with h | h
    · subst h; exact le_trans (foldl_min_le ys (min m x)) (min_le_right m x)
    · exact ih (min m y) x h

/-- If no remaining root score strictly beats the running best, the WHITE
root loop keeps the incoming best move. -/
lemma bestLoopW_keep (G : GameSpec β μ) (maxD : Nat) (b : β) :
    ∀ (ms : List μ) (best : μ) (bs : Int) (n : Nat),
      (∀ mv ∈ ms, rootScore G maxD b true mv ≤ bs) →
      (bestLoop G maxD b true ms best bs n).1 = best := by
  intro ms
  induction ms with
  | nil => intro best bs n _; rfl
  | cons mv rest ih =>
    intro best bs n hall
    have h1 : rootScore G maxD b true mv ≤ bs := hall mv (by simp)
    simp only [bestLoop]
    rw [if_neg (by simp; omega)]
    exact ih best bs _ fun x hx => hall x (by simp [hx])

/-- The WHITE root loop returns the first move, in generation order, whose
score equals the running maximum, whenever some move strictly improves on
the incoming best score. -/
lemma bestLoopW_find (G : GameSpec β μ) (maxD : Nat) (b : β) :
    ∀ (ms : List μ) (best : μ) (bs : Int) (n : Nat),
      bs < (ms.map (rootScore G maxD b true)).foldl max bs →
      ms.find? (fun mv =>
          rootScore G maxD b true mv == (ms.map (rootScore G maxD b true)).foldl max bs)
        = some (bestLoop G maxD b true ms best bs n).1 := by
  intro ms
  induction ms with
  | nil => intro best bs n h; simp at h
  | cons mv rest ih =>
    intro best bs n h
    have hM : ((mv :: rest).map (rootScore G maxD b true)).foldl max bs =
        (rest.map (rootScore G maxD b true)).foldl max
          (max bs (rootScore G maxD b true mv)) := by
      simp only [List.map_cons, List.foldl_cons]
    rcases lt_or_le bs (rootScore G maxD b true mv) with hbe | heb
    · -- strict improvement: the loop adopts mv and continues with bs = score
      have hmaxbe : max bs (rootScore G maxD b true mv) = rootScore G maxD b true mv :=
        max_eq_right (le_of_lt hbe)
      have hstep : bestLoop G maxD b true (mv :: rest) best bs n =
          bestLoop G maxD b true rest mv (rootScore G maxD b true mv)
            (n + rootNodes G maxD b true mv) := by
        simp only [bestLoop]
        rw [if_pos (Or.inl ⟨by trivial, hbe⟩)]
      have hM2 : ((mv :: rest).map (rootScore G maxD b true)).foldl max bs =
          (rest.map (rootScore G maxD b true)).foldl max (rootScore G maxD b true mv) := by
        rw [hM, hmaxbe]
      rcases le_or_lt ((rest.map (rootScore G maxD b true)).foldl max
          (rootScore G maxD b true mv)) (rootScore G maxD b true mv) with hre | her
      · -- nothing in the tail beats the head score: mv is kept
        have hre' : (rest.map (rootScore G maxD b true)).foldl max
            (rootScore G maxD b true mv) = rootScore G maxD b true mv :=
          le_antisymm hre (le_foldl_max _ _)
        rw [hstep, hM2, hre']
        have hkeep : (bestLoop G maxD b true rest mv (rootScore G maxD b true mv)
            (n + rootNodes G maxD b true mv)).1 = mv := by
          refine bestLoopW_keep G maxD b rest mv _ _ ?_
          intro x hx
          have h2 := foldl_max_ge_mem (rest.map (rootScore G maxD b true))
            (rootScore G maxD b true mv) (rootScore G maxD b true x)
            (List.mem_map_of_mem _ hx)
          omega
        rw [hkeep]
        simp [List.find?]
      · -- the tail still improves: the head is not the maximum, recurse
        rw [hstep, hM2]
        have hfind := ih mv (rootScore G maxD b true mv) (n + rootNodes G maxD b true mv) her
        rw [List.find?]
        have hne : (rootScore G maxD b true mv ==
            (rest.map (rootScore G maxD b true)).foldl max (rootScore G maxD b true mv))
            = false := by
          simp only [beq_eq_false_iff_ne]; omega
        rw [hne]
        exact hfind
    · -- no improvement: the head is skipped with the accumulators unchanged
      have hmaxbe : max bs (rootScore G maxD b true mv) = bs := max_eq_left heb
      have hstep : bestLoop G maxD b true (mv :: rest) best bs n =
          bestLoop G maxD b true rest best bs (n + rootNodes G maxD b true mv) := by
        simp only [bestLoop]
        rw [if_neg (by simp; omega)]
      have hM2 : ((mv :: rest).map (rootScore G maxD b true)).foldl max bs =
          (rest.map (rootScore G maxD b true)).foldl max bs := by
        rw [hM, hmaxbe]
      rw [hstep, hM2]
      rw [hM2] at h
      have hfind := ih best bs (n + rootNodes G maxD b true mv) h
      rw [List.find?]
      have hne : (rootScore G maxD b true mv ==
          (rest.map (rootScore G maxD b true)).foldl max bs) = false := by
        simp only [beq_eq_false_iff_ne]
        have h2 := le_foldl_max (rest.map (rootScore G maxD b true)) bs
        omega
      rw [hne]
      exact hfind

/-- If no remaining root score strictly undercuts the running best, the
BLACK root loop keeps the incoming best move. -/
lemma bestLoopB_keep (G : GameSpec β μ) (maxD : Nat) (b : β) :
    ∀ (ms : List μ) (best : μ) (bs : Int) (n : Nat),
      (∀ mv ∈ ms, bs ≤ rootScore G maxD b false mv) →
      (bestLoop G maxD b false ms best bs n).1 = best := by
  intro ms
  induction ms with
  | nil => intro best bs n _; rfl
  | cons mv rest ih =>
    intro best bs n hall
    have h1 : bs ≤ rootScore G maxD b false mv := hall mv (by simp)
    simp only [bestLoop]
    rw [if_neg (by simp; omega)]
    exact ih best bs _ fun x hx => hall x (by simp [hx])

/-- The BLACK root loop returns the first move, in generation order, whose
score equals the running minimum, whenever some move strictly undercuts the
incoming best score. -/
lemma bestLoopB_find (G : GameSpec β μ) (maxD : Nat) (b : β) :
    ∀ (ms : List μ) (best : μ) (bs : Int) (n : Nat),
      (ms.map (rootScore G maxD b false)).foldl min bs < bs →
      ms.find? (fun mv =>
          rootScore G maxD b false mv == (ms.map (rootScore G maxD b false)).foldl min bs)
        = some (bestLoop G maxD b false ms best bs n).1 := by
  intro ms
  induction ms with
  | nil => intro best bs n h; simp at h
  | cons mv rest ih =>
    intro best bs n h
    have hM : ((mv :: rest).map (rootScore G maxD b false)).foldl min bs =
        (rest.map (rootScore G maxD b false)).foldl min
          (min bs (rootScore G maxD b false mv)) := by
      simp only [List.map_cons, List.foldl_cons]
    rcases lt_or_le (rootScore G maxD b false mv) bs with hbe | heb
    · have hmaxbe : min bs (rootScore G maxD b false mv) = rootScore G maxD b false mv :=
        min_eq_right (le_of_lt hbe)
      have hstep : bestLoop G maxD b false (mv :: rest) best bs n =
          bestLoop G maxD b false rest mv (rootScore G maxD b false mv)
            (n + rootNodes G maxD b false mv) := by
        simp only [bestLoop]
        rw [if_pos (Or.inr ⟨by trivial, hbe⟩)]
      have hM2 : ((mv :: rest).map (rootScore G maxD b false)).foldl min bs =
          (rest.map (rootScore G maxD b false)).foldl min (rootScore G maxD b false mv) := by
        rw [hM, hmaxbe]
      rcases le_or_lt (rootScore G maxD b false mv)
          ((rest.map (rootScore G maxD b false)).foldl min
            (rootScore G maxD b false mv)) with hre | her
      · have hre' : (rest.map (rootScore G maxD b false)).foldl min
            (rootScore G maxD b false mv) = rootScore G maxD b false mv :=
          le_antisymm (foldl_min_le _ _) hre
        rw [hstep, hM2, hre']
        have hkeep : (bestLoop G maxD b false rest mv (rootScore G maxD b false mv)
            (n + rootNodes G maxD b false mv)).1 = mv := by
          refine bestLoopB_keep G maxD b rest mv _ _ ?_
          intro x hx
          have h2 := foldl_min_le_mem (rest.map (rootScore G maxD b false))
            (rootScore G maxD b false mv) (rootScore G maxD b false x)
            (List.mem_map_of_mem _ hx)
          omega
        rw [hkeep]
        simp [List.find?]
      · rw [hstep, hM2]
        have hfind := ih mv (rootScore G maxD b false mv) (n + rootNodes G maxD b false mv) her
        rw [List.find?]
        have hne : (rootScore G maxD b false mv ==
            (rest.map (rootScore G maxD b false)).foldl min (rootScore G maxD b false mv))
            = false := by
          simp only [beq_eq_false_iff_ne]; omega
        rw [hne]
        exact hfind
    · have hmaxbe : min bs (rootScore G maxD b false mv) = bs := min_eq_left heb
      have hstep : bestLoop G maxD b false (mv :: rest) best bs n =
          bestLoop G maxD b false rest best bs (n + rootNodes G maxD b false mv) := by
        simp only [bestLoop]
        rw [if_neg (by simp; omega)]
      have hM2 : ((mv :: rest).map (rootScore G maxD b false)).foldl min bs =
          (rest.map (rootScore G maxD b false)).foldl min bs := by
        rw [hM, hmaxbe]
      rw [hstep, hM2]
      rw [hM2] at h
      have hfind := ih best bs (n + rootNodes G maxD b false mv) h
      rw [List.find?]
      have hne : (rootScore G maxD b false mv ==
          (rest.map (rootScore G maxD b false)).foldl min bs) = false := by
        simp only [beq_eq_false_iff_ne]; omega
      rw [hne]
      exact hfind

/-- The node counter accumulated by the root loop is the incoming count plus
the nodes of every root move's search: the root loop has no cutoff. -/
lemma bestLoop_nodes (G : GameSpec β μ) (maxD : Nat) (b : β) (white : Bool) :
    ∀ (ms : List μ) (best : μ) (bs : Int) (n : Nat),
      (bestLoop G maxD b white ms best bs n).2.2 =
        n + (ms.map (rootNodes G maxD b white)).sum := by
  intro ms
  induction ms with
  | nil => intro best bs n; simp [bestLoop]
  | cons mv rest ih =>
    intro best bs n
    simp only [bestLoop]
    split
    · rw [ih]; simp; omega
    · rw [ih]; simp; omega

/-- The final bestScore of a WHITE root loop is the fold of max over the
root scores, seeded with the incoming best score. -/
lemma bestLoopW_score (G : GameSpec β μ) (maxD : Nat) (b : β) :
    ∀ (ms : List μ) (best : μ) (bs : Int) (n : Nat),
      (bestLoop G maxD b true ms best bs n).2.1 =
        (ms.map (rootScore G maxD b true)).foldl max bs := by
  intro ms
  induction ms with
  | nil => intro best bs n; simp [bestLoop]
  | cons mv rest ih =>
    intro best bs n
    simp only [bestLoop, List.map_cons, List.foldl_cons]
    rcases lt_or_le bs (rootScore G maxD b true mv) with hlt | hle
    · rw [if_pos (Or.inl ⟨by trivial, hlt⟩), ih, max_eq_right (le_of_lt hlt)]
    · rw [if_neg (by simp; omega), ih, max_eq_left hle]

/-- The final bestScore of a BLACK root loop is the fold of min over the
root scores, seeded with the incoming best score. -/
lemma bestLoopB_score (G : GameSpec β μ) (maxD : Nat) (b : β) :
    ∀ (ms : List μ) (best : μ) (bs : Int) (n : Nat),
      (bestLoop G maxD b false ms best bs n).2.1 =
        (ms.map (rootScore G maxD b false)).foldl min bs := by
  intro ms
  induction ms with
  | nil => intro best bs n; simp [bestLoop]
  | cons mv rest ih =>
    intro best bs n
    simp only [bestLoop, List.map_cons, List.foldl_cons]
    rcases lt_or_le (rootScore G maxD b false mv) bs with hlt | hle
    · rw [if_pos (Or.inr ⟨by trivial, hlt⟩), ih, min_eq_right (le_of_lt hlt)]
    · rw [if_neg (by simp; omega), ih, min_eq_left hle]

/-- Terminal evaluation of minimax on a checkmate node (no legal moves, side
to move in check) at positive depth: the depth-adjusted mate score. -/
lemma minimax_mate (G : GameSpec β μ) (maxD : Nat) (d : Nat) (b : β)
    (alpha beta : Int) (mx : Bool)
    (h1 : G.legalMoves b = []) (h2 : G.inCheck b = true) :
    minimax G maxD (d + 1) b alpha beta mx =
      if mx then -20000 + ((maxD : Int) - ((d + 1 : Nat) : Int))
      else 20000 - ((maxD : Int) - ((d + 1 : Nat) : Int)) := by
  simp [minimax, h1, h2]

/-- Terminal evaluation of minimax on a stalemate node (no legal moves, side
to move not in check) at positive depth: exactly 0. -/
lemma minimax_stalemate (G : GameSpec β μ) (maxD : Nat) (d : Nat) (b : β)
    (alpha beta : Int) (mx : Bool)
    (h1 : G.legalMoves b = []) (h2 : G.inCheck b = false) :
    minimax G maxD (d + 1) b alpha beta mx = 0 := by
  simp [minimax, h1, h2]

/-- The best score the root loop settles on, as specified from the loop's
contract: fold of max (WHITE root) or min (BLACK root) over the root scores,
seeded with the loop's initial best score. -/
def rootBestVal (G : GameSpec β μ) (maxD : Nat) (b : β) : Int :=
  if G.sideToMove b == Color.WHITE then
    ((G.legalMoves b).map (rootScore G maxD b true)).foldl max INT_MIN
  else
    ((G.legalMoves b).map (rootScore G maxD b false)).foldl min INT_MAX

/-- Full characterization of getBestMove on a root with at least one legal
move: the returned move is the first legal move in generation order whose
root score equals the best value, the node counter is the sum of the nodes
of every root move's search, and the three cout lines carry the node total,
the elapsed time, and the selected move with the winning score. -/
lemma getBestMove_spec (G : GameSpec β μ) (maxD : Nat) (t : Int) (b : β)
    (hev : ∀ b' : β, INT_MIN ≤ G.evalBoard b' ∧ G.evalBoard b' ≤ INT_MAX)
    (hM : (maxD : Int) + ((maxD - 1 : Nat) : Int) + 20001 ≤ INT_MAX)
    (m0 : μ) (rest : List μ) (hlm : G.legalMoves b = m0 :: rest) :
    getBestMove G maxD t b =
      ⟨some (((G.legalMoves b).find? fun mv =>
          rootScore G maxD b (G.sideToMove b == Color.WHITE) mv ==
            rootBestVal G maxD b).getD m0),
       ((G.legalMoves b).map (rootNodes G maxD b (G.sideToMove b == Color.WHITE))).sum,
       [OutLine.nodesLine
          (((G.legalMoves b).map (rootNodes G maxD b (G.sideToMove b == Color.WHITE))).sum),
        OutLine.timeLine t,
        OutLine.bestLine
          (((G.legalMoves b).find? fun mv =>
            rootScore G maxD b (G.sideToMove b == Color.WHITE) mv ==
              rootBestVal G maxD b).getD m0)
          (rootBestVal G maxD b)]⟩ := by
  have hbound : ∀ (w : Bool) (mv : μ),
      INT_MIN ≤ rootScore G maxD b w mv ∧ rootScore G maxD b w mv ≤ INT_MAX := by
    intro w mv
    unfold rootScore
    rw [minimax_full_window_eq G maxD hev (maxD - 1) (G.makeMove b mv) (!w) hM]
    exact pureMinimax_bound G maxD hev (maxD - 1) (G.makeMove b mv) (!w) hM
  have hred : getBestMove G maxD t b =
      ((fun r : μ × Int × Nat =>
        (⟨some r.1, r.2.2,
          [OutLine.nodesLine r.2.2, OutLine.timeLine t,
           OutLine.bestLine r.1 r.2.1]⟩ : EngineResult μ))
        (bestLoop G maxD b (G.sideToMove b == Color.WHITE) (m0 :: rest) m0
          (if G.sideToMove b == Color.WHITE then INT_MIN else INT_MAX) 0)) := by
    rw [getBestMove, hlm]
  have hcol : G.sideToMove b = Color.WHITE ∨ G.sideToMove b = Color.BLACK := by
    cases G.sideToMove b
    · exact Or.inl rfl
    · exact Or.inr rfl
  rcases hcol with hside | hside
  · have hw : (G.sideToMove b == Color.WHITE) = true := by rw [hside]; rfl
    rw [hred, hw, hlm]
    rw [show (if (true = true) then INT_MIN else INT_MAX) = INT_MIN from rfl]
    simp only []
    have hval : rootBestVal G maxD b =
        ((m0 :: rest).map (rootScore G maxD b true)).foldl max INT_MIN := by
      rw [rootBestVal, hw, if_pos rfl, hlm]
    have hfind : (m0 :: rest).find?
        (fun mv => rootScore G maxD b true mv == rootBestVal G maxD b) =
        some (bestLoop G maxD b true (m0 :: rest) m0 INT_MIN 0).1 := by
      rw [hval]
      rcases le_or_lt (((m0 :: rest).map (rootScore G maxD b true)).foldl max INT_MIN)
          INT_MIN with hle | hlt
      · have hMeq : ((m0 :: rest).map (rootScore G maxD b true)).foldl max INT_MIN
            = INT_MIN := le_antisymm hle (le_foldl_max _ _)
        have hall : ∀ mv ∈ (m0 :: rest), rootScore G maxD b true mv ≤ INT_MIN := by
          intro mv hmv
          have := foldl_max_ge_mem ((m0 :: rest).map (rootScore G maxD b true)) INT_MIN
            (rootScore G maxD b true mv) (List.mem_map_of_mem _ hmv)
          omega
        have hkeep := bestLoopW_keep G maxD b (m0 :: rest) m0 INT_MIN 0 hall
        rw [hkeep, hMeq]
        have hsc0 : rootScore G maxD b true m0 = INT_MIN := by
          have h1 := hall m0 (by simp)
          have h2 := (hbound true m0).1
          omega
        rw [List.find?]
        have : (rootScore G maxD b true m0 == INT_MIN) = true := by
          rw [hsc0]; exact beq_self_eq_true INT_MIN
        rw [this]
      · exact bestLoopW_find G maxD b (m0 :: rest) m0 INT_MIN 0 hlt
    rw [hfind]
    have hsc := bestLoopW_score G maxD b (m0 :: rest) m0 INT_MIN 0
    have hnd := bestLoop_nodes G maxD b true (m0 :: rest) m0 INT_MIN 0
    rw [Nat.zero_add] at hnd
    rw [← hval] at hsc
    simp only [Option.getD_some, hnd, hsc]
  · have hw : (G.sideToMove b == Color.WHITE) = false := by rw [hside]; rfl
    rw [hred, hw, hlm]
    rw [show (if (false = true) then INT_MIN else INT_MAX) = INT_MAX from rfl]
    simp only []
    have hval : rootBestVal G maxD b =
        ((m0 :: rest).map (rootScore G maxD b false)).foldl min INT_MAX := by
      rw [rootBestVal, hw]
      simp only [Bool.false_eq_true, if_false]
      rw [hlm]
    have hfind : (m0 :: rest).find?
        (fun mv => rootScore G maxD b false mv == rootBestVal G maxD b) =
        some (bestLoop G maxD b false (m0 :: rest) m0 INT_MAX 0).1 := by
      rw [hval]
      rcases le_or_lt INT_MAX (((m0 :: rest).map (rootScore G maxD b false)).foldl min INT_MAX)
          with hle | hlt
      · have hMeq : ((m0 :: rest).map (rootScore G maxD b false)).foldl min INT_MAX
            = INT_MAX := le_antisymm (foldl_min_le _ _) hle
        have hall : ∀ mv ∈ (m0 :: rest), INT_MAX ≤ rootScore G maxD b false mv := by
          intro mv hmv
          have := foldl_min_le_mem ((m0 :: rest).map (rootScore G maxD b false)) INT_MAX
            (rootScore G maxD b false mv) (List.mem_map_of_mem _ hmv)
          omega
        have hkeep := bestLoopB_keep G maxD b (m0 :: rest) m0 INT_MAX 0 hall
        rw [hkeep, hMeq]
        have hsc0 : rootScore G maxD b false m0 = INT_MAX := by
          have h1 := hall m0 (by simp)
          have h2 := (hbound false m0).2
          omega
        rw [List.find?]
        have : (rootScore G maxD b false m0 == INT_MAX) = true := by
          rw [hsc0]; exact beq_self_eq_true INT_MAX
        rw [this]
      · exact bestLoopB_find G maxD b (m0 :: rest) m0 INT_MAX 0 hlt
    rw [hfind]
    have hsc := bestLoopB_score G maxD b (m0 :: rest) m0 INT_MAX 0
    have hnd := bestLoop_nodes G maxD b false (m0 :: rest) m0 INT_MAX 0
    rw [Nat.zero_add] at hnd
    rw [← hval] at hsc
    simp only [Option.getD_some, hnd, hsc]

end Chess

namespace Chess

/-- A tiny concrete game used only to witness the search theorems on
explicit inputs: states are Fin 8, a move is the state it leads to. -/
def TG : GameSpec (Fin 8) (Fin 8) where
  legalMoves b :=
    match b with
    | 0 => [1, 2]
    | 1 => [3, 4]
    | 2 => [4, 5]
    | 3 => []
    | 4 => []
    | 5 => []
    | 6 => []
    | 7 => [7]
  makeMove _ m := m
  inCheck b := b == 3
  sideToMove b := if b == 2 then Color.BLACK else Color.WHITE
  evalBoard b :=
    match b with
    | 0 => 0
    | 1 => 10
    | 2 => 4
    | 3 => -9
    | 4 => 7
    | 5 => 7
    | 6 => 5
    | 7 => 3

/-!
## Claims about the search core
-/

/-- C1: for every board position and every depth, the score minimax returns
with alpha-beta pruning active (called at the root window) equals the score
of the same minimax with pruning disabled (alpha = -infinity and
beta = +infinity held constant throughout); pruning changes only the node
count, never the value.  The hypotheses state that the static evaluation and
the mate scores stay inside the int range, as they do in the C++ program. -/
theorem claim_C1_pruning_preserves_value (G : GameSpec β μ) (maxD d : Nat)
    (hev : ∀ b : β, INT_MIN ≤ G.evalBoard b ∧ G.evalBoard b ≤ INT_MAX)
    (hM : (maxD : Int) + (d : Int) + 20001 ≤ INT_MAX) (b : β) (mx : Bool) :
    minimax G maxD d b INT_MIN INT_MAX mx = pureMinimax G maxD d b mx :=
  minimax_full_window_eq G maxD hev d b mx hM

/-- Witness for C1 on the concrete test game. -/
theorem claim_C1_witness :
    ((∀ b : Fin 8, INT_MIN ≤ TG.evalBoard b ∧ TG.evalBoard b ≤ INT_MAX) ∧
      ((2 : Int) + (3 : Int) + 20001 ≤ INT_MAX)) ∧
    minimax TG 2 3 0 INT_MIN INT_MAX true = pureMinimax TG 2 3 0 true :=
  ⟨⟨by decide, by decide⟩,
   claim_C1_pruning_preserves_value TG 2 3 (by decide) (by decide) 0 true⟩

/-- C2: on a position with no legal moves and the side to move in check,
reached by minimax at depth > 0, minimax returns
maximizing ? -(20000 - (maxDepth - depth)) : (20000 - (maxDepth - depth)),
and a mate fewer plies from the root (larger remaining depth) scores
strictly more extreme than a deeper mate. -/
theorem claim_C2_mate_score (G : GameSpec β μ) (maxD : Nat) (d : Nat) (b : β)
    (alpha beta : Int) (mx : Bool)
    (h1 : G.legalMoves b = []) (h2 : G.inCheck b = true) :
    minimax G maxD (d + 1) b alpha beta mx =
      (if mx then -(20000 - ((maxD : Int) - ((d + 1 : Nat) : Int)))
       else 20000 - ((maxD : Int) - ((d + 1 : Nat) : Int)))
    ∧ ∀ (d2 : Nat) (b2 : β) (a2 bt2 : Int),
        G.legalMoves b2 = [] → G.inCheck b2 = true → d2 < d →
        (maxD : Int) ≤ 20000 + ((d2 + 1 : Nat) : Int) →
        (minimax G maxD (d2 + 1) b2 a2 bt2 mx).natAbs
          < (minimax G maxD (d + 1) b alpha beta mx).natAbs := by
  constructor
  · rw [minimax_mate G maxD d b alpha beta mx h1 h2]
    cases mx
    · rw [if_neg (by simp), if_neg (by simp)]
    · rw [if_pos rfl, if_pos rfl]
      ring
  · intro d2 b2 a2 bt2 g1 g2 hlt hbound
    rw [minimax_mate G maxD d b alpha beta mx h1 h2,
        minimax_mate G maxD d2 b2 a2 bt2 mx g1 g2]
    cases mx
    · rw [if_neg (by simp), if_neg (by simp)]
      push_cast
      omega
    · rw [if_pos rfl, if_pos rfl]
      push_cast
      omega

/-- Witness for C2 on the concrete test game: a mate one ply from the root
scores -19999, a mate two plies from the root scores -19998. -/
theorem claim_C2_witness :
    (TG.legalMoves 3 = [] ∧ TG.inCheck 3 = true) ∧
    minimax TG 3 2 3 0 5 true = -(20000 - ((3 : Int) - ((2 : Nat) : Int))) ∧
    (minimax TG 3 1 3 0 5 true).natAbs < (minimax TG 3 2 3 0 5 true).natAbs := by
  have h := claim_C2_mate_score TG 3 1 3 0 5 true (by decide) (by decide)
  exact ⟨⟨by decide, by decide⟩, h.1,
    h.2 0 3 0 5 (by decide) (by decide) (by decide) (by decide)⟩

/-- C3, counterexample: the claim quantifies over every depth at which
minimax is called, but at depth 0 minimax returns the static evaluation
before ever generating moves, so a stalemate position (no legal moves, not
in check) whose static evaluation is nonzero does not score 0 at depth 0. -/
theorem claim_C3_counterexample :
    TG.legalMoves 4 = [] ∧ TG.inCheck 4 = false ∧
      minimax TG 2 0 4 INT_MIN INT_MAX true ≠ 0 := by decide

/-- C3, amended: at every depth strictly greater than 0, if the position has
no legal moves and the side to move is not in check, minimax returns
exactly 0. -/
theorem claim_C3_stalemate_amended (G : GameSpec β μ) (maxD : Nat) (d : Nat)
    (b : β) (alpha beta : Int) (mx : Bool)
    (h1 : G.legalMoves b = []) (h2 : G.inCheck b = false) :
    minimax G maxD (d + 1) b alpha beta mx = 0 :=
  minimax_stalemate G maxD d b alpha beta mx h1 h2

/-- Witness for the amended C3 on the concrete test game. -/
theorem claim_C3_witness :
    (TG.legalMoves 4 = [] ∧ TG.inCheck 4 = false) ∧
      minimax TG 2 1 4 0 5 true = 0 :=
  ⟨⟨by decide, by decide⟩,
   claim_C3_stalemate_amended TG 2 0 4 0 5 true (by decide) (by decide)⟩

/-- C4: on a root with at least one legal move, getBestMove compares scores
with a strict inequality (> for WHITE roots, < for BLACK roots), so it
returns the first move in generation order whose root score equals the best
value; in particular a root with exactly one legal move returns that move
regardless of its score (that conjunct needs no score bounds at all). -/
theorem claim_C4_tie_break_first (G : GameSpec β μ) (maxD : Nat) (t : Int) (b : β)
    (hev : ∀ b' : β, INT_MIN ≤ G.evalBoard b' ∧ G.evalBoard b' ≤ INT_MAX)
    (hM : (maxD : Int) + ((maxD - 1 : Nat) : Int) + 20001 ≤ INT_MAX)
    (m0 : μ) (rest : List μ) (hlm : G.legalMoves b = m0 :: rest) :
    (getBestMove G maxD t b).retMove =
      some (((G.legalMoves b).find? fun mv =>
        rootScore G maxD b (G.sideToMove b == Color.WHITE) mv ==
          rootBestVal G maxD b).getD m0)
    ∧ (∀ m1 : μ, G.legalMoves b = [m1] →
        (getBestMove G maxD t b).retMove = some m1) := by
  constructor
  · rw [getBestMove_spec G maxD t b hev hM m0 rest hlm]
  · intro m1 h1
    rw [getBestMove, h1]
    simp only [bestLoop]
    split <;> split <;> rfl

/-- Witness for C4 on the concrete test game: the root 0 has legal moves
[1, 2]; the selected move is the first one attaining the best score. -/
theorem claim_C4_witness :
    ((∀ b : Fin 8, INT_MIN ≤ TG.evalBoard b ∧ TG.evalBoard b ≤ INT_MAX) ∧
      TG.legalMoves 0 = 1 :: [2]) ∧
    (getBestMove TG 2 17 0).retMove =
      some (((TG.legalMoves 0).find? fun mv =>
        rootScore TG 2 0 (TG.sideToMove 0 == Color.WHITE) mv ==
          rootBestVal TG 2 0).getD 1) ∧
    (getBestMove TG 2 17 0).retMove = some 2 :=
  ⟨⟨by decide, by decide⟩,
   (claim_C4_tie_break_first TG 2 17 0 (by decide) (by decide) 1 [2] (by decide)).1,
   by decide⟩

/-- C6, counterexample: getBestMove does not return its diagnostics as a
result record; it writes them to the hardwired standard-output stream.  On
the concrete test game the output trace is the three diagnostic lines and
the function's return value carries only the move. -/
theorem claim_C6_counterexample :
    (getBestMove TG 2 17 0).cout =
      [OutLine.nodesLine 6, OutLine.timeLine 17, OutLine.bestLine 2 7] ∧
    (getBestMove TG 2 17 0).cout ≠ [] := by decide

/-- C6, amended: getBestMove writes its diagnostics (total nodes visited,
elapsed wall time, the selected move's notation together with the winning
score) to the hardwired standard-output stream, in that order, and returns
only the selected move; the node count is additionally readable afterwards
through the getNodesSearched accessor. -/
theorem claim_C6_diagnostics_amended (G : GameSpec β μ) (maxD : Nat) (t : Int)
    (b : β)
    (hev : ∀ b' : β, INT_MIN ≤ G.evalBoard b' ∧ G.evalBoard b' ≤ INT_MAX)
    (hM : (maxD : Int) + ((maxD - 1 : Nat) : Int) + 20001 ≤ INT_MAX)
    (m0 : μ) (rest : List μ) (hlm : G.legalMoves b = m0 :: rest) :
    (getBestMove G maxD t b).cout =
      [OutLine.nodesLine
        (((G.legalMoves b).map (rootNodes G maxD b (G.sideToMove b == Color.WHITE))).sum),
       OutLine.timeLine t,
       OutLine.bestLine
         (((G.legalMoves b).find? fun mv =>
           rootScore G maxD b (G.sideToMove b == Color.WHITE) mv ==
             rootBestVal G maxD b).getD m0)
         (rootBestVal G maxD b)]
    ∧ (getBestMove G maxD t b).retMove =
        some (((G.legalMoves b).find? fun mv =>
          rootScore G maxD b (G.sideToMove b == Color.WHITE) mv ==
            rootBestVal G maxD b).getD m0)
    ∧ (getBestMove G maxD t b).nodesSearched =
        ((G.legalMoves b).map (rootNodes G maxD b (G.sideToMove b == Color.WHITE))).sum := by
  rw [getBestMove_spec G maxD t b hev hM m0 rest hlm]
  exact ⟨rfl, rfl, rfl⟩

/-- Witness for the amended C6 on the concrete test game. -/
theorem claim_C6_witness :
    ((∀ b : Fin 8, INT_MIN ≤ TG.evalBoard b ∧ TG.evalBoard b ≤ INT_MAX) ∧
      TG.legalMoves 0 = 1 :: [2]) ∧
    (getBestMove TG 2 17 0).cout =
      [OutLine.nodesLine
        (((TG.legalMoves 0).map (rootNodes TG 2 0 (TG.sideToMove 0 == Color.WHITE))).sum),
       OutLine.timeLine 17,
       OutLine.bestLine
         (((TG.legalMoves 0).find? fun mv =>
           rootScore TG 2 0 (TG.sideToMove 0 == Color.WHITE) mv ==
             rootBestVal TG 2 0).getD 1)
         (rootBestVal TG 2 0)] :=
  ⟨⟨by decide, by decide⟩,
   (claim_C6_diagnostics_amended TG 2 17 0 (by decide) (by decide) 1 [2] (by decide)).1⟩

/-- C10: when the root position has no legal moves, getBestMove returns the
sentinel "no move" value with no output, the node counter read afterwards is
exactly 0, and it cannot have called minimax, since every minimax call
contributes at least one node. -/
theorem claim_C10_empty_root (G : GameSpec β μ) (maxD : Nat) (t : Int) (b : β)
    (h : G.legalMoves b = []) :
    getBestMove G maxD t b = ⟨none, 0, []⟩ ∧
    ∀ (d : Nat) (b' : β) (alpha beta : Int) (mx : Bool),
      1 ≤ minimaxNodes G maxD d b' alpha beta mx := by
  constructor
  · rw [getBestMove, h]
  · exact fun d b' a bt mx => minimaxNodes_pos G maxD d b' a bt mx

/-- Witness for C10 on the concrete test game: position 3 has no legal
moves. -/
theorem claim_C10_witness :
    TG.legalMoves 3 = [] ∧ getBestMove TG 2 9 3 = ⟨none, 0, []⟩ ∧
      1 ≤ minimaxNodes TG 2 5 0 0 1 true :=
  ⟨by decide, (claim_C10_empty_root TG 2 9 3 (by decide)).1,
   (claim_C10_empty_root TG 2 9 3 (by decide)).2 5 0 0 1 true⟩

/-!
## The static evaluator (src/evaluate.cpp, Evaluator)

Positions are (file, rank) pairs of C++ ints; a Piece carries a type and a
color, with type NONE marking an empty square.  The board snapshot supplies
the three queries the evaluator makes: getPiece, isUnderAttack and
generatePseudoLegalMoves.  Piece::getValue is the collaborator's fixed
material table, kept as a parameter of the material term.  The imperative
score accumulations are rendered as sums of per-square contributions; loops
with a break are rendered as explicit list recursion or find?.
-/

/-- The side whose pieces are not this color. -/
def Color.opposite : Color → Color
  | Color.WHITE => Color.BLACK
  | Color.BLACK => Color.WHITE

/-- Piece types; NONE marks the empty square, so that getType on an empty
square compares unequal to every real piece type, as the source relies on. -/
inductive PieceType where
  | NONE
  | PAWN
  | KNIGHT
  | BISHOP
  | ROOK
  | QUEEN
  | KING
deriving DecidableEq

/-- A board square content: a piece type and a color. -/
structure Piece where
  type : PieceType
  color : Color
deriving DecidableEq

/-- Piece::isEmpty. -/
def Piece.isEmpty (p : Piece) : Bool := p.type == PieceType.NONE

/-- The empty square value. -/
def emptyPiece : Piece := ⟨PieceType.NONE, Color.WHITE⟩

/-- Position(file, rank), both C++ ints: off-board values are routine
intermediate results of the heuristic scans. -/
structure Position where
  file : Int
  rank : Int
deriving DecidableEq

/-- Position::isValid: both coordinates in [0, 8). -/
def Position.isValid (p : Position) : Bool :=
  decide (0 ≤ p.file) && decide (p.file < 8) && decide (0 ≤ p.rank) && decide (p.rank < 8)

/-- A move as the evaluator consumes it: only the destination is inspected
(move.to in the source); the source square is kept for completeness. -/
structure EMove where
  src : Position
  dst : Position
deriving DecidableEq

/-- The board snapshot interface the evaluator consumes: getPiece,
isUnderAttack(position, byColor) and generatePseudoLegalMoves(position). -/
structure EvalBoard where
  getPiece : Position → Piece
  isUnderAttack : Position → Color → Bool
  pseudoLegalMoves : Position → List EMove

/-- The eight file / rank indices every 0..7 loop ranges over. -/
def R8 : List Int := [0, 1, 2, 3, 4, 5, 6, 7]

/-- Sum of a contribution over a list: the additive reading of a score
accumulation loop. -/
def sumL {α : Type} (l : List α) (g : α → Int) : Int := (l.map g).sum

/-- Sum of a per-square contribution over the whole board, ranks outer and
files inner as in every scan of the source. -/
def board2 (g : Int → Int → Int) : Int :=
  sumL R8 fun rank => sumL R8 fun file => g file rank

/-- Whether some square satisfies a predicate, ranks outer. -/
def anyB (g : Int → Int → Bool) : Bool :=
  R8.any fun rank => R8.any fun file => g file rank

/-- All 64 squares in rank-major scan order (rank outer, file inner). -/
def allRM : List Position :=
  (R8.map fun rank => R8.map fun file => (⟨file, rank⟩ : Position)).flatten

/-- score += n for WHITE, score -= n for BLACK: the universal sign
convention of every heuristic term. -/
def signFor (c : Color) (n : Int) : Int := if c == Color.WHITE then n else -n

/-- One square of the material scan: the piece's value, negated for BLACK. -/
def materialSquare (V : PieceType → Int) (b : EvalBoard) (file rank : Int) : Int :=
  let piece := b.getPiece ⟨file, rank⟩
  if !piece.isEmpty then
    (if piece.color == Color.BLACK then -(V piece.type) else V piece.type)
  else 0

/-- Evaluator::evaluateMaterial, parametric in the collaborator's
Piece::getValue table: each piece adds its value, negated for BLACK. -/
def evaluateMaterial (V : PieceType → Int) (b : EvalBoard) : Int :=
  board2 (materialSquare V b)

/-- Evaluator::evaluatePiecePositions: knights get a centralization bonus
(3 minus the Manhattan distance to the d4/d5/e4/e5 block, floored at 0) and
three pawn-threat penalties per file offset: 15 when an enemy pawn two
squares away can push once onto an empty square that is not under attack by
the knight's side and attack the knight, 25 when an enemy pawn already
stands on a square from which it attacks the knight, and 20 when an enemy
pawn beside the knight can push onto an empty square; only the 15 branch
tests isUnderAttack. -/
def piecePositionsSquare (b : EvalBoard) (file rank : Int) : Int :=
    let pos : Position := ⟨file, rank⟩
    let piece := b.getPiece pos
    if piece.type == PieceType.KNIGHT then
      let fileDistFromCenter : Int := min (file - 3).natAbs (file - 4).natAbs
      let rankDistFromCenter : Int := min (rank - 3).natAbs (rank - 4).natAbs
      let distFromCenter := fileDistFromCenter + rankDistFromCenter
      let positionBonus := if 3 - distFromCenter < 0 then 0 else 3 - distFromCenter
      let enemyColor := if piece.color == Color.WHITE then Color.BLACK else Color.WHITE
      let pawnDirection : Int := if enemyColor == Color.WHITE then 1 else -1
      signFor piece.color positionBonus
      + sumL [(-1 : Int), 1] (fun fileOffset =>
          (let pawnAttackPos : Position := ⟨file + fileOffset, rank - pawnDirection⟩
           let pawnPos : Position := ⟨file + fileOffset, rank - pawnDirection - pawnDirection⟩
           if pawnPos.isValid && pawnAttackPos.isValid then
             let potentialPawn := b.getPiece pawnPos
             if !potentialPawn.isEmpty && potentialPawn.type == PieceType.PAWN &&
                 potentialPawn.color == enemyColor then
               if (b.getPiece pawnAttackPos).isEmpty then
                 if !(b.isUnderAttack pawnAttackPos piece.color) then
                   signFor piece.color (-15)
                 else 0
               else 0
             else 0
           else 0)
          +
          (let adjacentPawnPos : Position := ⟨file + fileOffset, rank - pawnDirection⟩
           if adjacentPawnPos.isValid then
             let adjacentPawn := b.getPiece adjacentPawnPos
             if !adjacentPawn.isEmpty && adjacentPawn.type == PieceType.PAWN &&
                 adjacentPawn.color == enemyColor then
               signFor piece.color (-25)
             else 0
           else 0))
      + sumL [(-1 : Int), 1] (fun fileOffset =>
          let readyPawnPos : Position := ⟨file + fileOffset, rank⟩
          let readyAttackPos : Position := ⟨file + fileOffset, rank + pawnDirection⟩
          if readyPawnPos.isValid && readyAttackPos.isValid then
            let readyPawn := b.getPiece readyPawnPos
            if !readyPawn.isEmpty && readyPawn.type == PieceType.PAWN &&
                readyPawn.color == enemyColor then
              if (b.getPiece readyAttackPos).isEmpty then
                signFor piece.color (-20)
              else 0
            else 0
          else 0)
    else 0

/-- Evaluator::evaluatePiecePositions summed over the board. -/
def evaluatePiecePositions (b : EvalBoard) : Int :=
  board2 (piecePositionsSquare b)

/-- The four center squares d4, d5, e4, e5. -/
def centerSquares : List Position := [⟨3, 3⟩, ⟨3, 4⟩, ⟨4, 3⟩, ⟨4, 4⟩]

/-- The developed-piece count used by evaluateCenterControl and
evaluateEarlyFPawnMoves: non-pawn, non-king pieces off their color's back
rank. -/
def dev1Square (b : EvalBoard) (file rank : Int) : Int :=
  let piece := b.getPiece ⟨file, rank⟩
  if !piece.isEmpty && piece.type != PieceType.PAWN && piece.type != PieceType.KING then
    if (piece.color == Color.WHITE && decide (rank > 0)) ||
        (piece.color == Color.BLACK && decide (rank < 7)) then 1 else 0
  else 0

/-- The rank-based developed-piece count summed over the board. -/
def developedCount1 (b : EvalBoard) : Int :=
  board2 (dev1Square b)

/-- Evaluator::evaluateCenterControl: occupancy bonus per center square
(20 for a pawn, 10 otherwise, doubled in the opening), a 5 penalty when the
occupant is under attack, and an attack bonus (5, or 15 in the opening) per
center square each side attacks. -/
def centerOccupancy (b : EvalBoard) (isOpening : Bool) (pos : Position) : Int :=
  let piece := b.getPiece pos
  if !piece.isEmpty then
    let bonus : Int := if piece.type == PieceType.PAWN then 20 else 10
    let bonus := if isOpening then bonus * 2 else bonus
    signFor piece.color bonus
    + (if b.isUnderAttack pos
          (if piece.color == Color.WHITE then Color.BLACK else Color.WHITE) then
        signFor piece.color (-5)
      else 0)
  else 0

/-- The attack-count bonus of one center square. -/
def centerAttack (b : EvalBoard) (isOpening : Bool) (pos : Position) : Int :=
  (if b.isUnderAttack pos Color.WHITE then (if isOpening then (15 : Int) else 5) else 0)
  + (if b.isUnderAttack pos Color.BLACK then -(if isOpening then (15 : Int) else 5) else 0)

/-- Evaluator::evaluateCenterControl over the four center squares. -/
def evaluateCenterControl (b : EvalBoard) : Int :=
  let isOpening := decide (developedCount1 b < 7)
  sumL centerSquares (centerOccupancy b isOpening)
  + sumL centerSquares (centerAttack b isOpening)

/-- Evaluator::evaluateMobility: explicit no-op extension point. -/
def evaluateMobility (_ : EvalBoard) : Int := 0

/-- Evaluator::evaluatePawnStructure: explicit no-op extension point. -/
def evaluatePawnStructure (_ : EvalBoard) : Int := 0

/-- Evaluator::evaluateKingSafety: explicit no-op extension point. -/
def evaluateKingSafety (_ : EvalBoard) : Int := 0

/-- Evaluator::evaluateEarlyQueenDevelopment: 15 plus twice the Manhattan
distance from the home square, per queen off its home square, charged to
the queen's side. -/
def earlyQueenSquare (b : EvalBoard) (file rank : Int) : Int :=
    let pos : Position := ⟨file, rank⟩
    let piece := b.getPiece pos
    if piece.type == PieceType.QUEEN then
      if piece.color == Color.WHITE then
        if pos != (⟨3, 0⟩ : Position) then
          let distance : Int := (pos.file - 3).natAbs + (pos.rank - 0).natAbs;
          -15 - distance * 2
        else 0
      else
        if pos != (⟨3, 7⟩ : Position) then
          let distance : Int := (pos.file - 3).natAbs + (pos.rank - 7).natAbs;
          15 + distance * 2
        else 0
    else 0

/-- Evaluator::evaluateEarlyQueenDevelopment summed over the board. -/
def evaluateEarlyQueenDevelopment (b : EvalBoard) : Int :=
  board2 (earlyQueenSquare b)

/-- The two knight home squares of a side (b1/g1 or b8/g8). -/
def knightStartSquares : Color → List Position
  | Color.WHITE => [⟨1, 0⟩, ⟨6, 0⟩]
  | Color.BLACK => [⟨1, 7⟩, ⟨6, 7⟩]

/-- The two bishop home squares of a side (c1/f1 or c8/f8). -/
def bishopStartSquares : Color → List Position
  | Color.WHITE => [⟨2, 0⟩, ⟨5, 0⟩]
  | Color.BLACK => [⟨2, 7⟩, ⟨5, 7⟩]

/-- The two rook home squares of a side (a1/h1 or a8/h8). -/
def rookStartSquares : Color → List Position
  | Color.WHITE => [⟨0, 0⟩, ⟨7, 0⟩]
  | Color.BLACK => [⟨0, 7⟩, ⟨7, 7⟩]

/-- The good development squares for a knight (c3/f3/d3/e3 mirrored). -/
def goodKnightSquares : Color → List Position
  | Color.WHITE => [⟨2, 2⟩, ⟨5, 2⟩, ⟨3, 2⟩, ⟨4, 2⟩]
  | Color.BLACK => [⟨2, 5⟩, ⟨5, 5⟩, ⟨3, 5⟩, ⟨4, 5⟩]

/-- The good development squares for a bishop (c3/f3/d2/e2/b3/g3 mirrored). -/
def goodBishopSquares : Color → List Position
  | Color.WHITE => [⟨2, 2⟩, ⟨5, 2⟩, ⟨3, 1⟩, ⟨4, 1⟩, ⟨1, 2⟩, ⟨6, 2⟩]
  | Color.BLACK => [⟨2, 5⟩, ⟨5, 5⟩, ⟨3, 6⟩, ⟨4, 6⟩, ⟨1, 5⟩, ⟨6, 5⟩]

/-- Whether some pawn of the given side is currently under attack (the first
pass of evaluatePieceDevelopment). -/
def attackedPawnSquare (b : EvalBoard) (c : Color) (file rank : Int) : Bool :=
  let piece := b.getPiece ⟨file, rank⟩
  !piece.isEmpty && piece.type == PieceType.PAWN && piece.color == c &&
    b.isUnderAttack ⟨file, rank⟩ c.opposite

/-- Whether some pawn of the given side is under attack, over the board. -/
def pawnsUnderAttackFlag (b : EvalBoard) (c : Color) : Bool :=
  anyB (attackedPawnSquare b c)

/-- The count of minor pieces of a side still on their home squares (the
first pass of evaluatePieceDevelopment). -/
def undevelopedMinorSquare (b : EvalBoard) (c : Color) (file rank : Int) : Int :=
  let pos : Position := ⟨file, rank⟩
  let piece := b.getPiece pos
  if piece.isEmpty then 0
  else if piece.type == PieceType.KNIGHT then
    (if piece.color == c && (knightStartSquares c).contains pos then 1 else 0)
  else if piece.type == PieceType.BISHOP then
    (if piece.color == c && (bishopStartSquares c).contains pos then 1 else 0)
  else 0

/-- The undeveloped-minor-piece count summed over the board. -/
def undevelopedMinorCount (b : EvalBoard) (c : Color) : Int :=
  board2 (undevelopedMinorSquare b c)

/-- Evaluator::evaluatePieceDevelopment: a per-piece penalty of 40 (80 when
the side's pawns are under attack) per undeveloped minor piece, then per
moved piece: knights and bishops get 50/45 (+30 when pawns are attacked) on
a good development square and -20 on a bad square unless under attack, and
rooks off their home square that are not under attack get -15. -/
def pieceDevSquare (b : EvalBoard) (whitePawnsUnderAttack blackPawnsUnderAttack : Bool)
    (file rank : Int) : Int :=
      let pos : Position := ⟨file, rank⟩
      let piece := b.getPiece pos
      if piece.isEmpty then 0
      else
        let isUnderAttack := b.isUnderAttack pos piece.color.opposite
        let pawnsAttacked :=
          if piece.color == Color.WHITE then whitePawnsUnderAttack else blackPawnsUnderAttack
        if piece.type == PieceType.KNIGHT then
          if !((knightStartSquares piece.color).contains pos) then
            let onGoodSquare := (goodKnightSquares piece.color).contains pos
            signFor piece.color
              ((if onGoodSquare then 50 + (if pawnsAttacked then 30 else 0) else 0)
               + (if !onGoodSquare && !isUnderAttack then -20 else 0))
          else 0
        else if piece.type == PieceType.BISHOP then
          if !((bishopStartSquares piece.color).contains pos) then
            let onGoodSquare := (goodBishopSquares piece.color).contains pos
            signFor piece.color
              ((if onGoodSquare then 45 + (if pawnsAttacked then 30 else 0) else 0)
               + (if !onGoodSquare && !isUnderAttack then -20 else 0))
          else 0
        else if piece.type == PieceType.ROOK then
          if !((rookStartSquares piece.color).contains pos) then
            (if !isUnderAttack then signFor piece.color (-15) else 0)
          else 0
        else 0

/-- Evaluator::evaluatePieceDevelopment: the undeveloped-minor penalties
followed by the per-square development pass. -/
def evaluatePieceDevelopment (b : EvalBoard) : Int :=
  let whitePawnsUnderAttack := pawnsUnderAttackFlag b Color.WHITE
  let blackPawnsUnderAttack := pawnsUnderAttackFlag b Color.BLACK
  (-(undevelopedMinorCount b Color.WHITE * (if whitePawnsUnderAttack then 80 else 40)))
  + undevelopedMinorCount b Color.BLACK * (if blackPawnsUnderAttack then 80 else 40)
  + board2 (pieceDevSquare b whitePawnsUnderAttack blackPawnsUnderAttack)

/-- Evaluator::evaluateEarlyKingMovement: a king off its home square that
has also left its back rank costs 50 plus 10 per rank of displacement. -/
def earlyKingSquare (b : EvalBoard) (file rank : Int) : Int :=
  let pos : Position := ⟨file, rank⟩
  let piece := b.getPiece pos
  if piece.type == PieceType.KING then
    if piece.color == Color.WHITE then
      if pos != (⟨4, 0⟩ : Position) then
        (if decide (pos.rank > 0) then -50 - pos.rank * 10 else 0)
      else 0
    else
      if pos != (⟨4, 7⟩ : Position) then
        (if decide (pos.rank < 7) then 50 + (7 - pos.rank) * 10 else 0)
      else 0
  else 0

/-- Evaluator::evaluateEarlyKingMovement summed over the board. -/
def evaluateEarlyKingMovement (b : EvalBoard) : Int :=
  board2 (earlyKingSquare b)

/-- Evaluator::evaluateCastling: 40 for a king on either castled square
(g1/c1, g8/c8); for a king still home, 15 when the kingside rook is still
home and 10 when the queenside rook is still home. -/
def castlingSquare (b : EvalBoard) (file rank : Int) : Int :=
    let pos : Position := ⟨file, rank⟩
    let piece := b.getPiece pos
    if piece.type == PieceType.KING then
      if piece.color == Color.WHITE then
        if pos == (⟨6, 0⟩ : Position) then 40
        else if pos == (⟨2, 0⟩ : Position) then 40
        else if pos == (⟨4, 0⟩ : Position) then
          let kingsideRook := b.getPiece ⟨7, 0⟩
          let queensideRook := b.getPiece ⟨0, 0⟩
          (if !kingsideRook.isEmpty && kingsideRook.type == PieceType.ROOK &&
              kingsideRook.color == Color.WHITE then (15 : Int) else 0)
          + (if !queensideRook.isEmpty && queensideRook.type == PieceType.ROOK &&
              queensideRook.color == Color.WHITE then (10 : Int) else 0)
        else 0
      else
        if pos == (⟨6, 7⟩ : Position) then -40
        else if pos == (⟨2, 7⟩ : Position) then -40
        else if pos == (⟨4, 7⟩ : Position) then
          let kingsideRook := b.getPiece ⟨7, 7⟩
          let queensideRook := b.getPiece ⟨0, 7⟩
          (if !kingsideRook.isEmpty && kingsideRook.type == PieceType.ROOK &&
              kingsideRook.color == Color.BLACK then (-15 : Int) else 0)
          + (if !queensideRook.isEmpty && queensideRook.type == PieceType.ROOK &&
              queensideRook.color == Color.BLACK then (-10 : Int) else 0)
        else 0
    else 0

/-- Evaluator::evaluateCastling summed over the board. -/
def evaluateCastling (b : EvalBoard) : Int :=
  board2 (castlingSquare b)

/-- One square of the piece-count scan. -/
def countSquare (b : EvalBoard) (file rank : Int) : Int :=
  if !(b.getPiece ⟨file, rank⟩).isEmpty then 1 else 0

/-- The total number of pieces on the board, the opening proxy of
evaluatePawnDoubleMoves. -/
def pieceCount (b : EvalBoard) : Int :=
  board2 (countSquare b)

/-- The double-move contribution of one WHITE pawn found at the given rank
of its file: a 20 penalty when it advanced more than two ranks from rank 1
and is not under attack, 10 more on a center file (d or e), and 10 more if
it is on files c..f and no longer diagonally controls a center square. -/
def whitePawnMoveValue (b : EvalBoard) (file : Int) (pos : Position) : Int :=
  if decide (pos.rank > 1) then
    if decide (pos.rank > 1 + 2) then
      if !(b.isUnderAttack pos Color.BLACK) then
        -20 + (if file == (3 : Int) || file == 4 then (-10 : Int) else 0)
        + (let controlsCenter := centerSquares.any fun cp =>
             (pos.file - cp.file).natAbs == 1 && cp.rank == pos.rank + 1
           if !controlsCenter &&
               (file == (2 : Int) || file == 3 || file == 4 || file == 5) then (-10 : Int)
           else 0)
      else 0
    else 0
  else 0

/-- The double-move contribution of one BLACK pawn found at the given rank
of its file: the mirror of whitePawnMoveValue, contributing positively. -/
def blackPawnMoveValue (b : EvalBoard) (file : Int) (pos : Position) : Int :=
  if decide (pos.rank < 6) then
    if decide (pos.rank < 6 - 2) then
      if !(b.isUnderAttack pos Color.WHITE) then
        20 + (if file == (3 : Int) || file == 4 then (10 : Int) else 0)
        + (let controlsCenter := centerSquares.any fun cp =>
             (pos.file - cp.file).natAbs == 1 && cp.rank == pos.rank - 1
           if !controlsCenter &&
               (file == (2 : Int) || file == 3 || file == 4 || file == 5) then (10 : Int)
           else 0)
      else 0
    else 0
  else 0

/-- The per-file WHITE pawn scan of evaluatePawnDoubleMoves: walk the ranks
upward from rank 0 and stop at the first WHITE pawn of the file (the
source's break), contributing its double-move value. -/
def whitePawnFileScan (b : EvalBoard) (file : Int) : List Int → Int
  | [] => 0
  | r :: rest =>
    let pos : Position := ⟨file, r⟩
    let piece := b.getPiece pos
    if !piece.isEmpty && piece.type == PieceType.PAWN && piece.color == Color.WHITE then
      whitePawnMoveValue b file pos
    else whitePawnFileScan b file rest

/-- The per-file BLACK pawn scan of evaluatePawnDoubleMoves: the source
walks the ranks in the same upward order (rank 0 first) and stops at the
first BLACK pawn of the file. -/
def blackPawnFileScan (b : EvalBoard) (file : Int) : List Int → Int
  | [] => 0
  | r :: rest =>
    let pos : Position := ⟨file, r⟩
    let piece := b.getPiece pos
    if !piece.isEmpty && piece.type == PieceType.PAWN && piece.color == Color.BLACK then
      blackPawnMoveValue b file pos
    else blackPawnFileScan b file rest

/-- Evaluator::evaluatePawnDoubleMoves: inactive below 28 total pieces;
otherwise, per file, the contribution of the first WHITE pawn and the first
BLACK pawn found scanning the ranks upward from rank 0. -/
def evaluatePawnDoubleMoves (b : EvalBoard) : Int :=
  if pieceCount b < 28 then 0
  else sumL R8 fun file => whitePawnFileScan b file R8 + blackPawnFileScan b file R8

/-- The developed-piece count shared by evaluateUndefendedPawns,
evaluateKingPawnShield and evaluateMinorPieceDevelopmentForDefense:
knights count as developed when off the b and g files (the rank is not
consulted), bishops and rooks when off their color's back rank, queens when
off their home square. -/
def dev2Square (b : EvalBoard) (file rank : Int) : Int :=
    let piece := b.getPiece ⟨file, rank⟩
    if !piece.isEmpty && piece.type != PieceType.PAWN && piece.type != PieceType.KING then
      if piece.type == PieceType.KNIGHT then
        (if (piece.color == Color.WHITE && (file != (1 : Int) && file != 6)) ||
            (piece.color == Color.BLACK && (file != (1 : Int) && file != 6)) then 1 else 0)
      else if piece.type == PieceType.BISHOP then
        (if (piece.color == Color.WHITE && rank != (0 : Int)) ||
            (piece.color == Color.BLACK && rank != (7 : Int)) then 1 else 0)
      else if piece.type == PieceType.ROOK then
        (if (piece.color == Color.WHITE && rank != (0 : Int)) ||
            (piece.color == Color.BLACK && rank != (7 : Int)) then 1 else 0)
      else if piece.type == PieceType.QUEEN then
        (if (piece.color == Color.WHITE && (file != (3 : Int) || rank != (0 : Int))) ||
            (piece.color == Color.BLACK && (file != (3 : Int) || rank != (7 : Int))) then 1
         else 0)
      else 0
    else 0

/-- The file-based developed-piece count summed over the board. -/
def developedCount2 (b : EvalBoard) : Int :=
  board2 (dev2Square b)

/-- Whether a move's destination defends the pawn: adjacent (including
diagonals) or a knight's move away. -/
def isDefendingMove (m : EMove) (pawnPos : Position) : Bool :=
  let fileDiff := (m.dst.file - pawnPos.file).natAbs
  let rankDiff := (m.dst.rank - pawnPos.rank).natAbs
  (decide (fileDiff ≤ 1) && decide (rankDiff ≤ 1)) ||
  (fileDiff == 1 && rankDiff == 2) || (fileDiff == 2 && rankDiff == 1)

/-- Evaluator::evaluatePotentialDefenders: for each same-side non-pawn
piece, the first pseudo-legal move whose destination defends the pawn and is
not under enemy attack contributes a piece-type bonus (knight 70, bishop 65,
rook 30, queen 10), +40 from a home square, +25 into the central 4x4 block;
at most one move counts per piece (the source's break). -/
def potentialDefenderSquare (b : EvalBoard) (pawnPos : Position) (pawnColor : Color)
    (file rank : Int) : Int :=
    let piecePos : Position := ⟨file, rank⟩
    let piece := b.getPiece piecePos
    if piece.isEmpty || piece.color != pawnColor || piece.type == PieceType.PAWN then 0
    else
      match (b.pseudoLegalMoves piecePos).find? (fun m =>
          isDefendingMove m pawnPos &&
          !(b.isUnderAttack m.dst
            (if pawnColor == Color.WHITE then Color.BLACK else Color.WHITE))) with
      | none => 0
      | some m =>
        let pieceBonus : Int :=
          if piece.type == PieceType.KNIGHT then 70
          else if piece.type == PieceType.BISHOP then 65
          else if piece.type == PieceType.ROOK then 30
          else if piece.type == PieceType.QUEEN then 10
          else 0
        let isFromStartingPosition :=
          if piece.type == PieceType.KNIGHT then
            (pawnColor == Color.WHITE && rank == (0 : Int) && (file == (1 : Int) || file == 6)) ||
            (pawnColor == Color.BLACK && rank == (7 : Int) && (file == (1 : Int) || file == 6))
          else if piece.type == PieceType.BISHOP then
            (pawnColor == Color.WHITE && rank == (0 : Int) && (file == (2 : Int) || file == 5)) ||
            (pawnColor == Color.BLACK && rank == (7 : Int) && (file == (2 : Int) || file == 5))
          else false
        pieceBonus + (if isFromStartingPosition then 40 else 0)
        + (if decide (2 ≤ m.dst.file) && decide (m.dst.file ≤ 5) &&
              decide (2 ≤ m.dst.rank) && decide (m.dst.rank ≤ 5) then 25 else 0)

/-- Evaluator::evaluatePotentialDefenders summed over the board. -/
def evaluatePotentialDefenders (b : EvalBoard) (pawnPos : Position) (pawnColor : Color) : Int :=
  board2 (potentialDefenderSquare b pawnPos pawnColor)

/-- One square of the attacker scan for an undefended pawn: an enemy piece
with a pseudo-legal move onto the pawn contributes 100 when it is itself
under attack by the pawn's side. -/
def attackerSquare (b : EvalBoard) (pos : Position) (pawnColor enemyColor : Color)
    (aFile aRank : Int) : Int :=
  let attackerPos : Position := ⟨aFile, aRank⟩
  let attackerPiece := b.getPiece attackerPos
  if !attackerPiece.isEmpty && attackerPiece.color == enemyColor &&
      (b.pseudoLegalMoves attackerPos).any
        (fun m => m.dst.file == pos.file && m.dst.rank == pos.rank) then
    if b.isUnderAttack attackerPos pawnColor then signFor pawnColor 100 else 0
  else 0

/-- One square of the undefended-pawn scan. -/
def undefendedPawnSquare (b : EvalBoard) (file rank : Int) : Int :=
  let pos : Position := ⟨file, rank⟩
  let piece := b.getPiece pos
  if !piece.isEmpty && piece.type == PieceType.PAWN then
    let pawnColor := piece.color
    let enemyColor := if pawnColor == Color.WHITE then Color.BLACK else Color.WHITE
    if b.isUnderAttack pos enemyColor then
      if !(b.isUnderAttack pos pawnColor) then
        signFor pawnColor (-120)
        + signFor pawnColor (evaluatePotentialDefenders b pos pawnColor)
        + board2 (attackerSquare b pos pawnColor enemyColor)
      else 0
    else 0
  else 0

/-- Evaluator::evaluateUndefendedPawns: inactive once more than 6 pieces are
developed; otherwise each pawn that is under attack with no same-side
defender costs 120, gets the potential-defender bonus back, and gains 100
for every attacking piece that is itself capturable by the pawn's side. -/
def evaluateUndefendedPawns (b : EvalBoard) : Int :=
  if developedCount2 b > 6 then 0
  else board2 (undefendedPawnSquare b)

/-- The king-location scan of evaluateKingPawnShield: walk the 64 squares in
rank-major order and keep the last king of the given color seen, starting
from the invalid sentinel (-1, -1). -/
def findKingRM (b : EvalBoard) (c : Color) : Position :=
  allRM.foldl
    (fun acc p =>
      let piece := b.getPiece p
      if !piece.isEmpty && piece.type == PieceType.KING && piece.color == c then p else acc)
    ⟨-1, -1⟩

/-- Evaluator::evaluateKingPawnShield: inactive once more than 6 pieces are
developed; a king castled short (g1/g8) whose f-pawn has advanced one extra
square (f3/f6) costs 80, plus 50 per enemy rook or queen found ahead on the
f-file; the diagonal check of the source is kept verbatim, including its
unsatisfiable rank condition (attackRank ranges over 3..7 but the condition
wants attackRank = 2, resp. over 4..0 wanting attackRank = 5). -/
def evaluateKingPawnShield (b : EvalBoard) : Int :=
  if developedCount2 b > 6 then 0
  else
    let whiteKingPos := findKingRM b Color.WHITE
    let blackKingPos := findKingRM b Color.BLACK
    (if whiteKingPos.isValid && whiteKingPos.rank == (0 : Int) &&
        whiteKingPos.file == (6 : Int) then
      let piece := b.getPiece ⟨5, 2⟩
      if !piece.isEmpty && piece.type == PieceType.PAWN && piece.color == Color.WHITE then
        -80 + sumL [(3 : Int), 4, 5, 6, 7] (fun attackRank =>
          (let filePiece := b.getPiece ⟨5, attackRank⟩
           if !filePiece.isEmpty && filePiece.color == Color.BLACK &&
               (filePiece.type == PieceType.QUEEN || filePiece.type == PieceType.ROOK) then
             (-50 : Int)
           else 0)
          + (if decide ((6 : Int) ≥ 0) && decide ((6 : Int) < 8) &&
                attackRank - 2 == (0 : Int) then
              let diagPiece := b.getPiece ⟨6, attackRank⟩
              if !diagPiece.isEmpty && diagPiece.color == Color.BLACK &&
                  (diagPiece.type == PieceType.QUEEN || diagPiece.type == PieceType.BISHOP) then
                (-60 : Int)
              else 0
            else 0))
      else 0
    else 0)
    + (if blackKingPos.isValid && blackKingPos.rank == (7 : Int) &&
          blackKingPos.file == (6 : Int) then
        let piece := b.getPiece ⟨5, 5⟩
        if !piece.isEmpty && piece.type == PieceType.PAWN && piece.color == Color.BLACK then
          80 + sumL [(4 : Int), 3, 2, 1, 0] (fun attackRank =>
            (let filePiece := b.getPiece ⟨5, attackRank⟩
             if !filePiece.isEmpty && filePiece.color == Color.WHITE &&
                 (filePiece.type == PieceType.QUEEN || filePiece.type == PieceType.ROOK) then
               (50 : Int)
             else 0)
            + (if decide ((6 : Int) ≥ 0) && decide ((6 : Int) < 8) &&
                  7 - attackRank == (2 : Int) then
                let diagPiece := b.getPiece ⟨6, attackRank⟩
                if !diagPiece.isEmpty && diagPiece.color == Color.WHITE &&
                    (diagPiece.type == PieceType.QUEEN || diagPiece.type == PieceType.BISHOP) then
                  (60 : Int)
                else 0
              else 0))
        else 0
      else 0)

/-- The pawns of a side that are under attack with no same-side defender, in
rank-major scan order (the first pass of
evaluateMinorPieceDevelopmentForDefense). -/
def pawnsNeedingDefense (b : EvalBoard) (c : Color) : List Position :=
  allRM.filter fun pos =>
    let piece := b.getPiece pos
    !piece.isEmpty && piece.type == PieceType.PAWN && piece.color == c &&
      b.isUnderAttack pos c.opposite && !(b.isUnderAttack pos c)

/-- Evaluator::evaluateMinorPieceDevelopmentForDefense: inactive once more
than 6 pieces are developed; while some pawn of a side needs defense, each
of that side's minor pieces still on a home square gains 35 (+15 into the
central 4x4 block) per pseudo-legal move whose destination is safe and
defends some needy pawn (the source's inner break counts each move at most
once). -/
def minorDefWhiteSquare (b : EvalBoard) (pawns : List Position) (file rank : Int) : Int :=
  let pos : Position := ⟨file, rank⟩
  let piece := b.getPiece pos
  if !piece.isEmpty &&
      (piece.type == PieceType.KNIGHT || piece.type == PieceType.BISHOP) &&
      piece.color == Color.WHITE then
    let isInStartingPosition :=
      if piece.type == PieceType.KNIGHT then
        rank == (0 : Int) && (file == (1 : Int) || file == 6)
      else rank == (0 : Int) && (file == (2 : Int) || file == 5)
    if !pawns.isEmpty && isInStartingPosition then
      sumL (b.pseudoLegalMoves pos) fun m =>
        if pawns.any (fun pawnPos => isDefendingMove m pawnPos) &&
            !(b.isUnderAttack m.dst Color.BLACK) then
          35 + (if decide (2 ≤ m.dst.file) && decide (m.dst.file ≤ 5) &&
                  decide (2 ≤ m.dst.rank) && decide (m.dst.rank ≤ 5) then (15 : Int) else 0)
        else 0
    else 0
  else 0

/-- The BLACK pass of evaluateMinorPieceDevelopmentForDefense, per square. -/
def minorDefBlackSquare (b : EvalBoard) (pawns : List Position) (file rank : Int) : Int :=
  let pos : Position := ⟨file, rank⟩
  let piece := b.getPiece pos
  if !piece.isEmpty &&
      (piece.type == PieceType.KNIGHT || piece.type == PieceType.BISHOP) &&
      piece.color == Color.BLACK then
    let isInStartingPosition :=
      if piece.type == PieceType.KNIGHT then
        rank == (7 : Int) && (file == (1 : Int) || file == 6)
      else rank == (7 : Int) && (file == (2 : Int) || file == 5)
    if !pawns.isEmpty && isInStartingPosition then
      sumL (b.pseudoLegalMoves pos) fun m =>
        if pawns.any (fun pawnPos => isDefendingMove m pawnPos) &&
            !(b.isUnderAttack m.dst Color.WHITE) then
          -35 + (if decide (2 ≤ m.dst.file) && decide (m.dst.file ≤ 5) &&
                  decide (2 ≤ m.dst.rank) && decide (m.dst.rank ≤ 5) then (-15 : Int)
                 else 0)
        else 0
    else 0
  else 0

/-- Evaluator::evaluateMinorPieceDevelopmentForDefense: the WHITE pass then
the BLACK pass. -/
def evaluateMinorPieceDevelopmentForDefense (b : EvalBoard) : Int :=
  if developedCount2 b > 6 then 0
  else
    board2 (minorDefWhiteSquare b (pawnsNeedingDefense b Color.WHITE))
    + board2 (minorDefBlackSquare b (pawnsNeedingDefense b Color.BLACK))

/-- Evaluator::evaluateEarlyFPawnMoves: in the opening (fewer than 7
developed pieces by the back-rank criterion), an f-pawn off its home square
costs 30 on the third rank and 60 on the fourth. -/
def evaluateEarlyFPawnMoves (b : EvalBoard) : Int :=
  let developedPieces := developedCount1 b
  let isOpening := developedPieces < 7
  if ¬isOpening then 0
  else
    (let pieceOnF2 := b.getPiece ⟨5, 1⟩
     let pieceOnF3 := b.getPiece ⟨5, 2⟩
     let pieceOnF4 := b.getPiece ⟨5, 3⟩
     if pieceOnF2.isEmpty then
       (if !pieceOnF3.isEmpty && pieceOnF3.type == PieceType.PAWN &&
           pieceOnF3.color == Color.WHITE then (-30 : Int) else 0)
       + (if !pieceOnF4.isEmpty && pieceOnF4.type == PieceType.PAWN &&
           pieceOnF4.color == Color.WHITE then (-60 : Int) else 0)
     else 0)
    + (let pieceOnF7 := b.getPiece ⟨5, 6⟩
       let pieceOnF6 := b.getPiece ⟨5, 5⟩
       let pieceOnF5 := b.getPiece ⟨5, 4⟩
       if pieceOnF7.isEmpty then
         (if !pieceOnF6.isEmpty && pieceOnF6.type == PieceType.PAWN &&
             pieceOnF6.color == Color.BLACK then (30 : Int) else 0)
         + (if !pieceOnF5.isEmpty && pieceOnF5.type == PieceType.PAWN &&
             pieceOnF5.color == Color.BLACK then (60 : Int) else 0)
       else 0)

/-- Evaluator::evaluate: the sum of the active heuristic terms in source
order (mobility, generic pawn structure and generic king safety are
commented out in the source and contribute nothing). -/
def evaluate (V : PieceType → Int) (b : EvalBoard) : Int :=
  evaluateMaterial V b
  + evaluateCenterControl b
  + evaluatePiecePositions b
  + evaluateEarlyQueenDevelopment b
  + evaluatePieceDevelopment b
  + evaluateEarlyKingMovement b
  + evaluateCastling b
  + evaluatePawnDoubleMoves b
  + evaluateUndefendedPawns b
  + evaluateKingPawnShield b
  + evaluateMinorPieceDevelopmentForDefense b
  + evaluateEarlyFPawnMoves b

/-!
### Color mirroring

The color-mirrored counterpart of a position: colors swapped and the board
reflected through the horizontal axis (rank r becomes rank 7 - r), so each
side's pieces occupy the other side's squares.  The collaborator's attack
and pseudo-legal-move queries mirror accordingly.
-/

/-- The same piece for the other side (the empty square stays empty, its
stored color being never consulted). -/
def flipPiece (p : Piece) : Piece := ⟨p.type, p.color.opposite⟩

/-- Reflection through the horizontal axis. -/
def mirrorPos (p : Position) : Position := ⟨p.file, 7 - p.rank⟩

/-- A move between mirrored squares. -/
def mirrorMove (m : EMove) : EMove := ⟨mirrorPos m.src, mirrorPos m.dst⟩

/-- The color-mirrored board snapshot. -/
def mirrorBoard (b : EvalBoard) : EvalBoard where
  getPiece p := flipPiece (b.getPiece (mirrorPos p))
  isUnderAttack p c := b.isUnderAttack (mirrorPos p) c.opposite
  pseudoLegalMoves p := (b.pseudoLegalMoves (mirrorPos p)).map mirrorMove

/-!
### Mirror infrastructure lemmas
-/

lemma bool_eq_of_iff {a b : Bool} (h : a = true ↔ b = true) : a = b := by
  cases a <;> cases b <;> simp_all

lemma mem_R8 (x : Int) : x ∈ R8 ↔ 0 ≤ x ∧ x < 8 := by
  simp [R8]
  omega

lemma sumL_congr {α : Type} (l : List α) (g h : α → Int)
    (hgh : ∀ x ∈ l, g x = h x) : sumL l g = sumL l h := by
  unfold sumL
  rw [List.map_congr_left hgh]

lemma sumL_neg {α : Type} (l : List α) (g : α → Int) :
    sumL l (fun x => -(g x)) = -(sumL l g) := by
  unfold sumL
  induction l with
  | nil => simp
  | cons x xs ih => simp only [List.map_cons, List.sum_cons, ih]; ring

lemma R8_reflect_sum (g : Int → Int) :
    sumL R8 (fun r => g (7 - r)) = sumL R8 g := by
  simp [sumL, R8]
  ring

/-- The master reindexing step for every board scan: if each square of one
contribution is the negation of the mirrored square of another, the board
sums are negations of one another. -/
lemma board2_neg_reflect (g h : Int → Int → Int)
    (hp : ∀ f r : Int, g f r = -(h f (7 - r))) : board2 g = -(board2 h) := by
  unfold board2
  calc sumL R8 (fun r => sumL R8 fun f => g f r)
      = sumL R8 (fun r => -(sumL R8 fun f => h f (7 - r))) := by
        refine sumL_congr _ _ _ ?_
        intro r _
        rw [show (sumL R8 fun f => g f r) = sumL R8 fun f => -(h f (7 - r)) from
          sumL_congr _ _ _ fun f _ => hp f r]
        exact sumL_neg _ _
    _ = -(sumL R8 (fun r => sumL R8 fun f => h f (7 - r))) := sumL_neg _ _
    _ = -(sumL R8 (fun r => sumL R8 fun f => h f r)) := by
        rw [R8_reflect_sum (fun r => sumL R8 fun f => h f r)]

/-- The congruence form of the same step, for sign-free quantities such as
the piece count and the developed counts. -/
lemma board2_reflect (g h : Int → Int → Int)
    (hp : ∀ f r : Int, g f r = h f (7 - r)) : board2 g = board2 h := by
  unfold board2
  calc sumL R8 (fun r => sumL R8 fun f => g f r)
      = sumL R8 (fun r => sumL R8 fun f => h f (7 - r)) := by
        refine sumL_congr _ _ _ ?_
        intro r _
        exact sumL_congr _ _ _ fun f _ => hp f r
    _ = sumL R8 (fun r => sumL R8 fun f => h f r) := by
        exact R8_reflect_sum (fun r => sumL R8 fun f => h f r)

/-- Plain pointwise congruence for board sums. -/
lemma board2_congr (g h : Int → Int → Int)
    (hp : ∀ f r : Int, g f r = h f r) : board2 g = board2 h := by
  unfold board2
  exact sumL_congr _ _ _ fun r _ => sumL_congr _ _ _ fun f _ => hp f r

lemma anyB_iff (g : Int → Int → Bool) :
    anyB g = true ↔ ∃ r ∈ R8, ∃ f ∈ R8, g f r = true := by
  simp [anyB, List.any_eq_true]

/-- The reflection step for the board-wide existence scans. -/
lemma anyB_reflect (g h : Int → Int → Bool)
    (hp : ∀ f r : Int, g f r = h f (7 - r)) : anyB g = anyB h := by
  apply bool_eq_of_iff
  simp only [anyB_iff]
  constructor
  · rintro ⟨r, hr, f, hf, hg⟩
    obtain ⟨hr0, hr8⟩ := (mem_R8 r).1 hr
    refine ⟨7 - r, (mem_R8 _).2 (by omega), f, hf, ?_⟩
    rw [← hp f r] at *
    exact hg
  · rintro ⟨r, hr, f, hf, hg⟩
    obtain ⟨hr0, hr8⟩ := (mem_R8 r).1 hr
    refine ⟨7 - r, (mem_R8 _).2 (by omega), f, hf, ?_⟩
    have h2 := hp f (7 - r)
    rw [show (7 : Int) - (7 - r) = r by ring] at h2
    rw [h2]
    exact hg

lemma mb_getPiece (b : EvalBoard) (p : Position) :
    (mirrorBoard b).getPiece p = flipPiece (b.getPiece (mirrorPos p)) := rfl

lemma mb_attack (b : EvalBoard) (p : Position) (c : Color) :
    (mirrorBoard b).isUnderAttack p c = b.isUnderAttack (mirrorPos p) c.opposite := rfl

lemma mb_moves (b : EvalBoard) (p : Position) :
    (mirrorBoard b).pseudoLegalMoves p = (b.pseudoLegalMoves (mirrorPos p)).map mirrorMove := rfl

lemma mirrorPos_mk (f r : Int) : mirrorPos ⟨f, r⟩ = ⟨f, 7 - r⟩ := rfl

lemma flipPiece_isEmpty (p : Piece) : (flipPiece p).isEmpty = p.isEmpty := rfl

lemma flipPiece_type (p : Piece) : (flipPiece p).type = p.type := rfl

lemma flipPiece_color (p : Piece) : (flipPiece p).color = p.color.opposite := rfl

lemma opposite_invol (c : Color) : c.opposite.opposite = c := by cases c <;> rfl

lemma opposite_beq_white (c : Color) :
    (c.opposite == Color.WHITE) = (c == Color.BLACK) := by cases c <;> rfl

lemma opposite_beq_black (c : Color) :
    (c.opposite == Color.BLACK) = (c == Color.WHITE) := by cases c <;> rfl

lemma signFor_opposite (c : Color) (n : Int) :
    signFor c.opposite n = -(signFor c n) := by
  cases c <;> simp [signFor, Color.opposite]

lemma isValid_mirror (f r : Int) :
    (Position.mk f (7 - r)).isValid = (Position.mk f r).isValid := by
  apply bool_eq_of_iff
  simp only [Position.isValid, Bool.and_eq_true, decide_eq_true_eq]
  omega

/-- Whether this square holds a pawn of the given color. -/
def isPawnOfColor (p : Piece) (c : Color) : Bool :=
  !p.isEmpty && p.type == PieceType.PAWN && p.color == c

/-- Whether this square holds a king of the given color. -/
def isKingOfColor (p : Piece) (c : Color) : Bool :=
  !p.isEmpty && p.type == PieceType.KING && p.color == c

/-- At most one pawn of the given color on each file: doubled pawns are the
configurations on which the two pawn scans of evaluatePawnDoubleMoves
disagree between the colors. -/
@[reducible]
def pawnUniqueOnFiles (b : EvalBoard) (c : Color) : Prop :=
  ∀ f ∈ R8, ∀ r1 ∈ R8, ∀ r2 ∈ R8,
    isPawnOfColor (b.getPiece ⟨f, r1⟩) c = true →
    isPawnOfColor (b.getPiece ⟨f, r2⟩) c = true → r1 = r2

/-- At most one king of the given color on the board: multiple kings make
the last-match king scan of evaluateKingPawnShield order dependent. -/
@[reducible]
def kingUnique (b : EvalBoard) (c : Color) : Prop :=
  ∀ p ∈ allRM, ∀ q ∈ allRM,
    isKingOfColor (b.getPiece p) c = true →
    isKingOfColor (b.getPiece q) c = true → p = q

/-!
### Mirror antisymmetry of the heuristic terms
-/

lemma materialSquare_mirror (V : PieceType → Int) (b : EvalBoard) (f r : Int) :
    materialSquare V (mirrorBoard b) f r = -(materialSquare V b f (7 - r)) := by
  simp only [materialSquare, mb_getPiece, mirrorPos_mk, flipPiece_isEmpty, flipPiece_type,
    flipPiece_color, opposite_beq_black]
  cases hc : (b.getPiece ⟨f, 7 - r⟩).color <;>
    cases hemp : (b.getPiece ⟨f, 7 - r⟩).isEmpty <;> simp [hc, hemp]

lemma evaluateMaterial_mirror (V : PieceType → Int) (b : EvalBoard) :
    evaluateMaterial V (mirrorBoard b) = -(evaluateMaterial V b) := by
  unfold evaluateMaterial
  exact board2_neg_reflect _ _ (materialSquare_mirror V b)

lemma countSquare_mirror (b : EvalBoard) (f r : Int) :
    countSquare (mirrorBoard b) f r = countSquare b f (7 - r) := by
  simp only [countSquare, mb_getPiece, mirrorPos_mk, flipPiece_isEmpty]

lemma pieceCount_mirror (b : EvalBoard) :
    pieceCount (mirrorBoard b) = pieceCount b := by
  unfold pieceCount
  exact board2_reflect _ _ (countSquare_mirror b)

lemma dev1Square_mirror (b : EvalBoard) (f r : Int) :
    dev1Square (mirrorBoard b) f r = dev1Square b f (7 - r) := by
  simp only [dev1Square, mb_getPiece, mirrorPos_mk, flipPiece_isEmpty, flipPiece_type,
    flipPiece_color, opposite_beq_black, opposite_beq_white]
  rw [show (decide ((7 : Int) - r > 0)) = decide (r < 7) from by
    simp [decide_eq_decide]]
  rw [show (decide ((7 : Int) - r < 7)) = decide (r > 0) from by
    simp [decide_eq_decide]]
  cases hc : (b.getPiece ⟨f, 7 - r⟩).color <;>
    cases hemp : (b.getPiece ⟨f, 7 - r⟩).isEmpty <;> simp [hc, hemp]

lemma developedCount1_mirror (b : EvalBoard) :
    developedCount1 (mirrorBoard b) = developedCount1 b := by
  unfold developedCount1
  exact board2_reflect _ _ (dev1Square_mirror b)

lemma dev2Square_mirror (b : EvalBoard) (f r : Int) :
    dev2Square (mirrorBoard b) f r = dev2Square b f (7 - r) := by
  simp only [dev2Square, mb_getPiece, mirrorPos_mk, flipPiece_isEmpty, flipPiece_type,
    flipPiece_color, opposite_beq_black, opposite_beq_white]
  rw [show (((7 : Int) - r) != (0 : Int)) = (r != (7 : Int)) from by
    apply bool_eq_of_iff; simp only [bne_iff_ne, ne_eq]; omega]
  rw [show (((7 : Int) - r) != (7 : Int)) = (r != (0 : Int)) from by
    apply bool_eq_of_iff; simp only [bne_iff_ne, ne_eq]; omega]
  cases hc : (b.getPiece ⟨f, 7 - r⟩).color <;>
    cases hemp : (b.getPiece ⟨f, 7 - r⟩).isEmpty <;> simp [hc, hemp]

lemma developedCount2_mirror (b : EvalBoard) :
    developedCount2 (mirrorBoard b) = developedCount2 b := by
  unfold developedCount2
  exact board2_reflect _ _ (dev2Square_mirror b)

lemma pos_bne_mirror (f r a c : Int) :
    ((Position.mk f r) != (Position.mk a c)) =
      ((Position.mk f (7 - r)) != (Position.mk a (7 - c))) := by
  apply bool_eq_of_iff
  simp only [bne_iff_ne, ne_eq, Position.mk.injEq]
  omega

lemma pos_beq_mirror (f r a c : Int) :
    ((Position.mk f r) == (Position.mk a c)) =
      ((Position.mk f (7 - r)) == (Position.mk a (7 - c))) := by
  apply bool_eq_of_iff
  simp only [beq_iff_eq, Position.mk.injEq]
  omega

lemma earlyQueenSquare_mirror (b : EvalBoard) (f r : Int) :
    earlyQueenSquare (mirrorBoard b) f r = -(earlyQueenSquare b f (7 - r)) := by
  simp only [earlyQueenSquare, mb_getPiece, mirrorPos_mk, flipPiece_isEmpty, flipPiece_type,
    flipPiece_color, opposite_beq_white]
  rw [show ((Position.mk f r) != (⟨3, 0⟩ : Position)) =
      ((Position.mk f (7 - r)) != (⟨3, 7⟩ : Position)) from by
    rw [pos_bne_mirror f r 3 0]; norm_num]
  have hab0 : |(-r : Int)| = |r| := abs_neg r
  have hab : |(7 : Int) - r| = |r - 7| := abs_sub_comm 7 r
  cases hc : (b.getPiece ⟨f, 7 - r⟩).color <;> simp [hc] <;> split_ifs <;> omega

lemma evaluateEarlyQueenDevelopment_mirror (b : EvalBoard) :
    evaluateEarlyQueenDevelopment (mirrorBoard b) = -(evaluateEarlyQueenDevelopment b) := by
  unfold evaluateEarlyQueenDevelopment
  exact board2_neg_reflect _ _ (earlyQueenSquare_mirror b)

lemma earlyKingSquare_mirror (b : EvalBoard) (f r : Int) :
    earlyKingSquare (mirrorBoard b) f r = -(earlyKingSquare b f (7 - r)) := by
  simp only [earlyKingSquare, mb_getPiece, mirrorPos_mk, flipPiece_isEmpty, flipPiece_type,
    flipPiece_color, opposite_beq_white]
  rw [show ((Position.mk f r) != (⟨4, 0⟩ : Position)) =
      ((Position.mk f (7 - r)) != (⟨4, 7⟩ : Position)) from by
    rw [pos_bne_mirror f r 4 0]; norm_num]
  cases hc : (b.getPiece ⟨f, 7 - r⟩).color <;> simp [hc] <;> split_ifs <;> omega

lemma evaluateEarlyKingMovement_mirror (b : EvalBoard) :
    evaluateEarlyKingMovement (mirrorBoard b) = -(evaluateEarlyKingMovement b) := by
  unfold evaluateEarlyKingMovement
  exact board2_neg_reflect _ _ (earlyKingSquare_mirror b)

lemma castlingSquare_mirror (b : EvalBoard) (f r : Int) :
    castlingSquare (mirrorBoard b) f r = -(castlingSquare b f (7 - r)) := by
  simp only [castlingSquare, mb_getPiece, mirrorPos_mk, flipPiece_isEmpty, flipPiece_type,
    flipPiece_color, opposite_beq_white, opposite_beq_black]
  rw [show ((Position.mk f r) == (⟨6, 0⟩ : Position)) =
      ((Position.mk f (7 - r)) == (⟨6, 7⟩ : Position)) from by
    rw [pos_beq_mirror f r 6 0]; norm_num]
  rw [show ((Position.mk f r) == (⟨2, 0⟩ : Position)) =
      ((Position.mk f (7 - r)) == (⟨2, 7⟩ : Position)) from by
    rw [pos_beq_mirror f r 2 0]; norm_num]
  rw [show ((Position.mk f r) == (⟨4, 0⟩ : Position)) =
      ((Position.mk f (7 - r)) == (⟨4, 7⟩ : Position)) from by
    rw [pos_beq_mirror f r 4 0]; norm_num]
  norm_num
  cases hc : (b.getPiece ⟨f, 7 - r⟩).color <;>
    simp [hc] <;> split_ifs <;> omega

lemma centerSquares_reflect (g : Position → Int) :
    sumL centerSquares (fun p => g (mirrorPos p)) = sumL centerSquares g := by
  norm_num [sumL, centerSquares, mirrorPos]
  ring

lemma centerOccupancy_mirror (b : EvalBoard) (o : Bool) (p : Position) :
    centerOccupancy (mirrorBoard b) o p = -(centerOccupancy b o (mirrorPos p)) := by
  simp only [centerOccupancy, mb_getPiece, mb_attack, flipPiece_isEmpty, flipPiece_type,
    flipPiece_color, opposite_beq_white, opposite_beq_black]
  cases hc : (b.getPiece (mirrorPos p)).color <;>
    simp [hc, signFor, Color.opposite] <;> split_ifs <;> ring

lemma centerAttack_mirror (b : EvalBoard) (o : Bool) (p : Position) :
    centerAttack (mirrorBoard b) o p = -(centerAttack b o (mirrorPos p)) := by
  simp only [centerAttack, mb_attack, Color.opposite]
  split_ifs <;> ring

lemma evaluateCenterControl_mirror (b : EvalBoard) :
    evaluateCenterControl (mirrorBoard b) = -(evaluateCenterControl b) := by
  rw [show ∀ c, evaluateCenterControl c =
      sumL centerSquares (centerOccupancy c (decide (developedCount1 c < 7))) +
        sumL centerSquares (centerAttack c (decide (developedCount1 c < 7)))
    from fun c => rfl]
  rw [show ∀ c, evaluateCenterControl c =
      sumL centerSquares (centerOccupancy c (decide (developedCount1 c < 7))) +
        sumL centerSquares (centerAttack c (decide (developedCount1 c < 7)))
    from fun c => rfl]
  rw [developedCount1_mirror]
  have h1 : sumL centerSquares (centerOccupancy (mirrorBoard b)
      (decide (developedCount1 b < 7))) =
      -(sumL centerSquares (centerOccupancy b (decide (developedCount1 b < 7)))) := by
    rw [show sumL centerSquares (centerOccupancy (mirrorBoard b)
        (decide (developedCount1 b < 7))) =
        sumL centerSquares (fun p => -(centerOccupancy b
          (decide (developedCount1 b < 7)) (mirrorPos p))) from
      sumL_congr _ _ _ fun p _ => centerOccupancy_mirror b _ p]
    rw [sumL_neg]
    rw [centerSquares_reflect (centerOccupancy b (decide (developedCount1 b < 7)))]
  have h2 : sumL centerSquares (centerAttack (mirrorBoard b)
      (decide (developedCount1 b < 7))) =
      -(sumL centerSquares (centerAttack b (decide (developedCount1 b < 7)))) := by
    rw [show sumL centerSquares (centerAttack (mirrorBoard b)
        (decide (developedCount1 b < 7))) =
        sumL centerSquares (fun p => -(centerAttack b
          (decide (developedCount1 b < 7)) (mirrorPos p))) from
      sumL_congr _ _ _ fun p _ => centerAttack_mirror b _ p]
    rw [sumL_neg]
    rw [centerSquares_reflect (centerAttack b (decide (developedCount1 b < 7)))]
  rw [h1, h2]
  ring

lemma evaluateCastling_mirror (b : EvalBoard) :
    evaluateCastling (mirrorBoard b) = -(evaluateCastling b) := by
  unfold evaluateCastling
  exact board2_neg_reflect _ _ (castlingSquare_mirror b)

lemma knightStart_contains_mirror (c : Color) (f r : Int) :
    (knightStartSquares c).contains (⟨f, r⟩ : Position) =
    (knightStartSquares c.opposite).contains (⟨f, 7 - r⟩ : Position) := by
  apply bool_eq_of_iff
  cases c
  all_goals simp [knightStartSquares, Color.opposite, beq_iff_eq, Position.mk.injEq]
  all_goals omega

lemma bishopStart_contains_mirror (c : Color) (f r : Int) :
    (bishopStartSquares c).contains (⟨f, r⟩ : Position) =
    (bishopStartSquares c.opposite).contains (⟨f, 7 - r⟩ : Position) := by
  apply bool_eq_of_iff
  cases c
  all_goals simp [bishopStartSquares, Color.opposite, beq_iff_eq, Position.mk.injEq]
  all_goals omega

lemma rookStart_contains_mirror (c : Color) (f r : Int) :
    (rookStartSquares c).contains (⟨f, r⟩ : Position) =
    (rookStartSquares c.opposite).contains (⟨f, 7 - r⟩ : Position) := by
  apply bool_eq_of_iff
  cases c
  all_goals simp [rookStartSquares, Color.opposite, beq_iff_eq, Position.mk.injEq]
  all_goals omega

lemma goodKnight_contains_mirror (c : Color) (f r : Int) :
    (goodKnightSquares c).contains (⟨f, r⟩ : Position) =
    (goodKnightSquares c.opposite).contains (⟨f, 7 - r⟩ : Position) := by
  apply bool_eq_of_iff
  cases c <;>
    simp [goodKnightSquares, Color.opposite, beq_iff_eq, Position.mk.injEq] <;> omega

lemma goodBishop_contains_mirror (c : Color) (f r : Int) :
    (goodBishopSquares c).contains (⟨f, r⟩ : Position) =
    (goodBishopSquares c.opposite).contains (⟨f, 7 - r⟩ : Position) := by
  apply bool_eq_of_iff
  cases c <;>
    simp [goodBishopSquares, Color.opposite, beq_iff_eq, Position.mk.injEq] <;> omega

lemma opposite_beq (c d : Color) : (c.opposite == d) = (c == d.opposite) := by
  cases c <;> cases d <;> rfl

lemma opposite_if_white {α : Type} (c : Color) (x y : α) :
    (if c.opposite == Color.WHITE then x else y) = (if c == Color.WHITE then y else x) := by
  cases c <;> rfl

lemma attackedPawnSquare_mirror (b : EvalBoard) (c : Color) (f r : Int) :
    attackedPawnSquare (mirrorBoard b) c f r = attackedPawnSquare b c.opposite f (7 - r) := by
  simp only [attackedPawnSquare, mb_getPiece, mirrorPos_mk, flipPiece_isEmpty, flipPiece_type,
    flipPiece_color, mb_attack, opposite_invol, opposite_beq]

lemma pawnsUnderAttackFlag_mirror (b : EvalBoard) (c : Color) :
    pawnsUnderAttackFlag (mirrorBoard b) c = pawnsUnderAttackFlag b c.opposite := by
  unfold pawnsUnderAttackFlag
  exact anyB_reflect _ _ (attackedPawnSquare_mirror b c)

lemma undevelopedMinorSquare_mirror (b : EvalBoard) (c : Color) (f r : Int) :
    undevelopedMinorSquare (mirrorBoard b) c f r =
      undevelopedMinorSquare b c.opposite f (7 - r) := by
  simp only [undevelopedMinorSquare, mb_getPiece, mirrorPos_mk, flipPiece_isEmpty,
    flipPiece_type, flipPiece_color]
  rw [knightStart_contains_mirror c f r, bishopStart_contains_mirror c f r]
  simp only [opposite_beq]

lemma undevelopedMinorCount_mirror (b : EvalBoard) (c : Color) :
    undevelopedMinorCount (mirrorBoard b) c = undevelopedMinorCount b c.opposite := by
  unfold undevelopedMinorCount
  exact board2_reflect _ _ (undevelopedMinorSquare_mirror b c)

lemma pieceDevSquare_mirror (b : EvalBoard) (w bl : Bool) (f r : Int) :
    pieceDevSquare (mirrorBoard b) w bl f r = -(pieceDevSquare b bl w f (7 - r)) := by
  simp only [pieceDevSquare, mb_getPiece, mirrorPos_mk, flipPiece_isEmpty, flipPiece_type,
    flipPiece_color, mb_attack, opposite_invol]
  rw [knightStart_contains_mirror ((b.getPiece ⟨f, 7 - r⟩).color.opposite) f r,
    bishopStart_contains_mirror ((b.getPiece ⟨f, 7 - r⟩).color.opposite) f r,
    rookStart_contains_mirror ((b.getPiece ⟨f, 7 - r⟩).color.opposite) f r,
    goodKnight_contains_mirror ((b.getPiece ⟨f, 7 - r⟩).color.opposite) f r,
    goodBishop_contains_mirror ((b.getPiece ⟨f, 7 - r⟩).color.opposite) f r]
  simp only [opposite_invol, opposite_if_white, signFor_opposite]
  split_ifs <;> ring

lemma evaluatePieceDevelopment_mirror (b : EvalBoard) :
    evaluatePieceDevelopment (mirrorBoard b) = -(evaluatePieceDevelopment b) := by
  have hw : pawnsUnderAttackFlag (mirrorBoard b) Color.WHITE =
      pawnsUnderAttackFlag b Color.BLACK := pawnsUnderAttackFlag_mirror b Color.WHITE
  have hb : pawnsUnderAttackFlag (mirrorBoard b) Color.BLACK =
      pawnsUnderAttackFlag b Color.WHITE := pawnsUnderAttackFlag_mirror b Color.BLACK
  have hu1 : undevelopedMinorCount (mirrorBoard b) Color.WHITE =
      undevelopedMinorCount b Color.BLACK := undevelopedMinorCount_mirror b Color.WHITE
  have hu2 : undevelopedMinorCount (mirrorBoard b) Color.BLACK =
      undevelopedMinorCount b Color.WHITE := undevelopedMinorCount_mirror b Color.BLACK
  rw [show ∀ c, evaluatePieceDevelopment c =
      (-(undevelopedMinorCount c Color.WHITE *
          (if pawnsUnderAttackFlag c Color.WHITE then 80 else 40)))
      + undevelopedMinorCount c Color.BLACK *
          (if pawnsUnderAttackFlag c Color.BLACK then 80 else 40)
      + board2 (pieceDevSquare c (pawnsUnderAttackFlag c Color.WHITE)
          (pawnsUnderAttackFlag c Color.BLACK))
    from fun c => rfl]
  rw [show ∀ c, evaluatePieceDevelopment c =
      (-(undevelopedMinorCount c Color.WHITE *
          (if pawnsUnderAttackFlag c Color.WHITE then 80 else 40)))
      + undevelopedMinorCount c Color.BLACK *
          (if pawnsUnderAttackFlag c Color.BLACK then 80 else 40)
      + board2 (pieceDevSquare c (pawnsUnderAttackFlag c Color.WHITE)
          (pawnsUnderAttackFlag c Color.BLACK))
    from fun c => rfl]
  rw [hw, hb, hu1, hu2]
  rw [show board2 (pieceDevSquare (mirrorBoard b) (pawnsUnderAttackFlag b Color.BLACK)
      (pawnsUnderAttackFlag b Color.WHITE)) =
      -(board2 (pieceDevSquare b (pawnsUnderAttackFlag b Color.WHITE)
        (pawnsUnderAttackFlag b Color.BLACK))) from
    board2_neg_reflect _ _ (pieceDevSquare_mirror b _ _)]
  ring

lemma evaluateEarlyFPawnMoves_mirror (b : EvalBoard) :
    evaluateEarlyFPawnMoves (mirrorBoard b) = -(evaluateEarlyFPawnMoves b) := by
  simp only [evaluateEarlyFPawnMoves, mb_getPiece, mirrorPos_mk, flipPiece_isEmpty,
    flipPiece_type, flipPiece_color, opposite_beq_white, opposite_beq_black,
    developedCount1_mirror]
  norm_num
  split_ifs <;> ring

/-- A concrete instantiation of the collaborator's Piece::getValue table,
used only on explicit witness boards. -/
def V0 : PieceType → Int
  | PieceType.NONE => 0
  | PieceType.PAWN => 100
  | PieceType.KNIGHT => 320
  | PieceType.BISHOP => 330
  | PieceType.ROOK => 500
  | PieceType.QUEEN => 900
  | PieceType.KING => 20000

/-- The standard back-rank piece of a file for one side. -/
def backRank (c : Color) (file : Int) : Piece :=
  if file == (0 : Int) || file == 7 then ⟨PieceType.ROOK, c⟩
  else if file == (1 : Int) || file == 6 then ⟨PieceType.KNIGHT, c⟩
  else if file == (2 : Int) || file == 5 then ⟨PieceType.BISHOP, c⟩
  else if file == (3 : Int) then ⟨PieceType.QUEEN, c⟩
  else if file == (4 : Int) then ⟨PieceType.KING, c⟩
  else emptyPiece

/-- The standard starting position, with no square attacked and no
pseudo-legal moves exposed (the collaborator queries are inputs of the
model). -/
def startBoard : EvalBoard where
  getPiece p :=
    if p.rank == (0 : Int) then backRank Color.WHITE p.file
    else if p.rank == (1 : Int) then ⟨PieceType.PAWN, Color.WHITE⟩
    else if p.rank == (6 : Int) then ⟨PieceType.PAWN, Color.BLACK⟩
    else if p.rank == (7 : Int) then backRank Color.BLACK p.file
    else emptyPiece
  isUnderAttack _ _ := false
  pseudoLegalMoves _ := []

/-- A 32-piece position with doubled WHITE pawns on the a-file (a2 and a6,
the b-pawn having been exchanged for the second a-pawn): the first-match
pawn scan of evaluatePawnDoubleMoves, which walks the ranks upward for both
colors, finds a2 for WHITE here but finds the advanced mirrored pawn a3
first for BLACK on the mirrored board. -/
def doubledBoard : EvalBoard where
  getPiece p :=
    if p.rank == (0 : Int) then backRank Color.WHITE p.file
    else if p.rank == (1 : Int) then
      (if p.file == (1 : Int) then emptyPiece else ⟨PieceType.PAWN, Color.WHITE⟩)
    else if p.rank == (5 : Int) && p.file == (0 : Int) then ⟨PieceType.PAWN, Color.WHITE⟩
    else if p.rank == (6 : Int) then ⟨PieceType.PAWN, Color.BLACK⟩
    else if p.rank == (7 : Int) then backRank Color.BLACK p.file
    else emptyPiece
  isUnderAttack _ _ := false
  pseudoLegalMoves _ := []

/-- The piece-placement term as the specification words it: every one of
the three knight-vulnerability penalties (15, 25 and 20) requires that the
square the enemy pawn attacks from is not under attack by the knight's
side. -/
def piecePositionsSquareClaim (b : EvalBoard) (file rank : Int) : Int :=
    let pos : Position := ⟨file, rank⟩
    let piece := b.getPiece pos
    if piece.type == PieceType.KNIGHT then
      let fileDistFromCenter : Int := min (file - 3).natAbs (file - 4).natAbs
      let rankDistFromCenter : Int := min (rank - 3).natAbs (rank - 4).natAbs
      let distFromCenter := fileDistFromCenter + rankDistFromCenter
      let positionBonus := if 3 - distFromCenter < 0 then 0 else 3 - distFromCenter
      let enemyColor := if piece.color == Color.WHITE then Color.BLACK else Color.WHITE
      let pawnDirection : Int := if enemyColor == Color.WHITE then 1 else -1
      signFor piece.color positionBonus
      + sumL [(-1 : Int), 1] (fun fileOffset =>
          (let pawnAttackPos : Position := ⟨file + fileOffset, rank - pawnDirection⟩
           let pawnPos : Position := ⟨file + fileOffset, rank - pawnDirection - pawnDirection⟩
           if pawnPos.isValid && pawnAttackPos.isValid then
             let potentialPawn := b.getPiece pawnPos
             if !potentialPawn.isEmpty && potentialPawn.type == PieceType.PAWN &&
                 potentialPawn.color == enemyColor then
               if (b.getPiece pawnAttackPos).isEmpty then
                 if !(b.isUnderAttack pawnAttackPos piece.color) then
                   signFor piece.color (-15)
                 else 0
               else 0
             else 0
           else 0)
          +
          (let adjacentPawnPos : Position := ⟨file + fileOffset, rank - pawnDirection⟩
           if adjacentPawnPos.isValid then
             let adjacentPawn := b.getPiece adjacentPawnPos
             if !adjacentPawn.isEmpty && adjacentPawn.type == PieceType.PAWN &&
                 adjacentPawn.color == enemyColor then
               if !(b.isUnderAttack adjacentPawnPos piece.color) then
                 signFor piece.color (-25)
               else 0
             else 0
           else 0))
      + sumL [(-1 : Int), 1] (fun fileOffset =>
          let readyPawnPos : Position := ⟨file + fileOffset, rank⟩
          let readyAttackPos : Position := ⟨file + fileOffset, rank + pawnDirection⟩
          if readyPawnPos.isValid && readyAttackPos.isValid then
            let readyPawn := b.getPiece readyPawnPos
            if !readyPawn.isEmpty && readyPawn.type == PieceType.PAWN &&
                readyPawn.color == enemyColor then
              if (b.getPiece readyAttackPos).isEmpty then
                if !(b.isUnderAttack readyAttackPos piece.color) then
                  signFor piece.color (-20)
                else 0
              else 0
            else 0
          else 0)
    else 0

/-- The piece-placement term as the amended specification words it: the
centralization bonus is 3 minus the Manhattan distance to the center block,
floored at 0; the 15 penalty requires the pushed pawn's landing square to be
empty and not under attack by the knight's side; the 25 penalty requires
only an enemy pawn already on an attacking square, defended or not; the 20
penalty requires only an enemy pawn beside the knight with an empty landing
square, defended or not. -/
def piecePositionsClaimAmended (b : EvalBoard) (file rank : Int) : Int :=
    let pos : Position := ⟨file, rank⟩
    let piece := b.getPiece pos
    if piece.type == PieceType.KNIGHT then
      let fileDistFromCenter : Int := min (file - 3).natAbs (file - 4).natAbs
      let rankDistFromCenter : Int := min (rank - 3).natAbs (rank - 4).natAbs
      let distFromCenter := fileDistFromCenter + rankDistFromCenter
      let enemyColor := if piece.color == Color.WHITE then Color.BLACK else Color.WHITE
      let pawnDirection : Int := if enemyColor == Color.WHITE then 1 else -1
      signFor piece.color (max 0 (3 - distFromCenter))
      + sumL [(-1 : Int), 1] (fun fileOffset =>
          (if ((⟨file + fileOffset, rank - pawnDirection - pawnDirection⟩ : Position).isValid &&
               (⟨file + fileOffset, rank - pawnDirection⟩ : Position).isValid) &&
              isPawnOfColor (b.getPiece ⟨file + fileOffset, rank - pawnDirection - pawnDirection⟩)
                enemyColor &&
              (b.getPiece ⟨file + fileOffset, rank - pawnDirection⟩).isEmpty &&
              !(b.isUnderAttack ⟨file + fileOffset, rank - pawnDirection⟩ piece.color) then
             signFor piece.color (-15)
           else 0)
          +
          (if (⟨file + fileOffset, rank - pawnDirection⟩ : Position).isValid &&
              isPawnOfColor (b.getPiece ⟨file + fileOffset, rank - pawnDirection⟩) enemyColor then
             signFor piece.color (-25)
           else 0))
      + sumL [(-1 : Int), 1] (fun fileOffset =>
          if ((⟨file + fileOffset, rank⟩ : Position).isValid &&
              (⟨file + fileOffset, rank + pawnDirection⟩ : Position).isValid) &&
             isPawnOfColor (b.getPiece ⟨file + fileOffset, rank⟩) enemyColor &&
             (b.getPiece ⟨file + fileOffset, rank + pawnDirection⟩).isEmpty then
            signFor piece.color (-20)
          else 0)
    else 0

/-- A position with a WHITE knight on d4 directly attacked by a BLACK pawn
on c5, on a board where every square is reported as under attack: the
source still charges the unguarded 25 penalty, while the claim's fully
guarded reading charges nothing. -/
def cexC8 : EvalBoard where
  getPiece p :=
    if p == (⟨3, 3⟩ : Position) then ⟨PieceType.KNIGHT, Color.WHITE⟩
    else if p == (⟨2, 4⟩ : Position) then ⟨PieceType.PAWN, Color.BLACK⟩
    else emptyPiece
  isUnderAttack _ _ := true
  pseudoLegalMoves _ := []

lemma ite_and2 (a b : Bool) (v : Int) :
    (if a then (if b then v else 0) else 0) = (if a && b then v else 0) := by
  cases a <;> cases b <;> rfl

lemma ite_max_floor (x : Int) : (if 3 - x < 0 then 0 else 3 - x) = max 0 (3 - x) := by omega

lemma piecePositionsSquare_eq_claimAmended (b : EvalBoard) (f r : Int) :
    piecePositionsSquare b f r = piecePositionsClaimAmended b f r := by
  simp only [piecePositionsSquare, piecePositionsClaimAmended]
  by_cases hknight : ((b.getPiece ⟨f, r⟩).type == PieceType.KNIGHT) = true
  · rw [if_pos hknight, if_pos hknight, ite_max_floor]
    simp only [isPawnOfColor, sumL, List.map_cons, List.map_nil, List.sum_cons, List.sum_nil,
      ite_and2, Bool.and_assoc]
  · rw [if_neg hknight, if_neg hknight]

set_option maxHeartbeats 1000000 in
lemma piecePositionsClaimAmended_mirror (b : EvalBoard) (f r : Int) :
    piecePositionsClaimAmended (mirrorBoard b) f r =
      -(piecePositionsClaimAmended b f (7 - r)) := by
  simp only [piecePositionsClaimAmended, mb_getPiece, mirrorPos_mk, flipPiece_isEmpty,
    flipPiece_type, flipPiece_color, mb_attack, opposite_invol, opposite_beq, isPawnOfColor]
  by_cases hk : ((b.getPiece ⟨f, 7 - r⟩).type == PieceType.KNIGHT) = true
  · rw [if_pos hk, if_pos hk, neg_add, neg_add]
    congr 1
    · congr 1
      · rw [signFor_opposite]
        have h1 : ((7 : Int) - r - 3).natAbs = (r - 4).natAbs := by omega
        have h2 : ((7 : Int) - r - 4).natAbs = (r - 3).natAbs := by omega
        rw [h1, h2, min_comm (((r - 4).natAbs : Int)) (((r - 3).natAbs : Int))]
      · rw [← sumL_neg]
        refine sumL_congr _ _ _ fun off _ => ?_
        cases hc : (b.getPiece ⟨f, 7 - r⟩).color
        · simp [hc, Color.opposite, signFor]
          rw [show (7 : Int) - r + 1 + 1 = 7 - (r - 1 - 1) from by ring,
            show (7 : Int) - r + 1 = 7 - (r - 1) from by ring,
            isValid_mirror (f + off) (r - 1 - 1), isValid_mirror (f + off) (r - 1)]
          split_ifs <;> ring
        · simp [hc, Color.opposite, signFor]
          rw [show (7 : Int) - r - 1 - 1 = 7 - (r + 1 + 1) from by ring,
            show (7 : Int) - r - 1 = 7 - (r + 1) from by ring,
            isValid_mirror (f + off) (r + 1 + 1), isValid_mirror (f + off) (r + 1)]
          split_ifs <;> ring
    · rw [← sumL_neg]
      refine sumL_congr _ _ _ fun off _ => ?_
      cases hc : (b.getPiece ⟨f, 7 - r⟩).color
      · simp [hc, Color.opposite, signFor]
        rw [show (7 : Int) - r + -1 = 7 - (r + 1) from by ring,
          isValid_mirror (f + off) r, isValid_mirror (f + off) (r + 1)]
        split_ifs <;> ring
      · simp [hc, Color.opposite, signFor]
        rw [show (7 : Int) - r + 1 = 7 - (r + -1) from by ring,
          isValid_mirror (f + off) r, isValid_mirror (f + off) (r + -1)]
        split_ifs <;> ring
  · rw [if_neg hk, if_neg hk]
    norm_num

lemma piecePositionsSquare_mirror (b : EvalBoard) (f r : Int) :
    piecePositionsSquare (mirrorBoard b) f r = -(piecePositionsSquare b f (7 - r)) := by
  rw [piecePositionsSquare_eq_claimAmended, piecePositionsSquare_eq_claimAmended]
  exact piecePositionsClaimAmended_mirror b f r

lemma evaluatePiecePositions_mirror (b : EvalBoard) :
    evaluatePiecePositions (mirrorBoard b) = -(evaluatePiecePositions b) := by
  unfold evaluatePiecePositions
  exact board2_neg_reflect _ _ (piecePositionsSquare_mirror b)


/-- No king of either color anywhere on the board. -/
@[reducible]
def NoKingOn (b : EvalBoard) : Prop :=
  ∀ p ∈ allRM, (b.getPiece p).type ≠ PieceType.KING

/-- Two boards whose piece queries agree on every on-board square; they may
disagree arbitrarily at invalid (off-board) positions. -/
@[reducible]
def agreeOnValid (b b2 : EvalBoard) : Prop :=
  ∀ p ∈ allRM, b.getPiece p = b2.getPiece p

/-- A pawns-only position with no king of either color. -/
def kinglessBoard : EvalBoard where
  getPiece p :=
    if p.rank == (1 : Int) then ⟨PieceType.PAWN, Color.WHITE⟩
    else if p.rank == (6 : Int) then ⟨PieceType.PAWN, Color.BLACK⟩
    else emptyPiece
  isUnderAttack _ _ := false
  pseudoLegalMoves _ := []

/-- The same position except that the piece query is made to report a WHITE
king at the invalid sentinel square (-1, -1): the king heuristics must not
be able to observe it. -/
def offBoardKingBoard : EvalBoard where
  getPiece p :=
    if p == (⟨-1, -1⟩ : Position) then ⟨PieceType.KING, Color.WHITE⟩
    else if p.rank == (1 : Int) then ⟨PieceType.PAWN, Color.WHITE⟩
    else if p.rank == (6 : Int) then ⟨PieceType.PAWN, Color.BLACK⟩
    else emptyPiece
  isUnderAttack _ _ := false
  pseudoLegalMoves _ := []

lemma sumL_zero {α : Type} (l : List α) (g : α → Int) :
    (∀ x ∈ l, g x = 0) → sumL l g = 0 := by
  induction l with
  | nil => intro _; rfl
  | cons a t ih =>
    intro h
    rw [show sumL (a :: t) g = g a + sumL t g by simp [sumL]]
    rw [h a (by simp), ih fun x hx => h x (by simp [hx])]
    norm_num

lemma board2_zero (g : Int → Int → Int)
    (h : ∀ f ∈ R8, ∀ r ∈ R8, g f r = 0) : board2 g = 0 := by
  unfold board2
  exact sumL_zero _ _ fun r hr => sumL_zero _ _ fun f hf => h f hf r hr

lemma board2_congr_mem (g h : Int → Int → Int)
    (hp : ∀ f ∈ R8, ∀ r ∈ R8, g f r = h f r) : board2 g = board2 h := by
  unfold board2
  exact sumL_congr _ _ _ fun r hr => sumL_congr _ _ _ fun f hf => hp f hf r hr

lemma mem_allRM_of {f r : Int} (hf : f ∈ R8) (hr : r ∈ R8) :
    (⟨f, r⟩ : Position) ∈ allRM := by
  unfold allRM
  simp only [List.mem_flatten, List.mem_map]
  exact ⟨R8.map fun file => (⟨file, r⟩ : Position), ⟨r, hr, rfl⟩, List.mem_map.2 ⟨f, hf, rfl⟩⟩

lemma findKingRM_sentinel (b : EvalBoard) (c : Color)
    (h : ∀ p ∈ allRM, (b.getPiece p).type ≠ PieceType.KING) :
    findKingRM b c = ⟨-1, -1⟩ := by
  unfold findKingRM
  have aux : ∀ (l : List Position), (∀ p ∈ l, (b.getPiece p).type ≠ PieceType.KING) →
      ∀ acc : Position,
      l.foldl (fun acc p =>
        let piece := b.getPiece p
        if !piece.isEmpty && piece.type == PieceType.KING && piece.color == c then p else acc)
        acc = acc := by
    intro l
    induction l with
    | nil => intro _ acc; rfl
    | cons a t ih =>
      intro hl acc
      rw [List.foldl_cons]
      have hne := hl a (by simp)
      have hcond : ((!(b.getPiece a).isEmpty && (b.getPiece a).type == PieceType.KING &&
          (b.getPiece a).color == c)) = false := by
        cases hb : ((b.getPiece a).type == PieceType.KING) with
        | false => simp [hb]
        | true => exact absurd (by simpa using hb) hne
      simp only [hcond, Bool.false_eq_true, if_false]
      exact ih (fun p hp => hl p (by simp [hp])) acc
  exact aux allRM h ⟨-1, -1⟩

lemma findKingRM_congr (b b2 : EvalBoard) (c : Color)
    (hag : ∀ p ∈ allRM, b.getPiece p = b2.getPiece p) :
    findKingRM b c = findKingRM b2 c := by
  unfold findKingRM
  have aux : ∀ (l : List Position), (∀ p ∈ l, b.getPiece p = b2.getPiece p) →
      ∀ acc : Position,
      l.foldl (fun acc p =>
        let piece := b.getPiece p
        if !piece.isEmpty && piece.type == PieceType.KING && piece.color == c then p else acc)
        acc =
      l.foldl (fun acc p =>
        let piece := b2.getPiece p
        if !piece.isEmpty && piece.type == PieceType.KING && piece.color == c then p else acc)
        acc := by
    intro l
    induction l with
    | nil => intro _ acc; rfl
    | cons a t ih =>
      intro hl acc
      rw [List.foldl_cons, List.foldl_cons]
      have h1 := hl a (by simp)
      simp only [h1]
      exact ih (fun p hp => hl p (by simp [hp])) _
  exact aux allRM hag ⟨-1, -1⟩

/-- A 32-piece position with doubled BLACK pawns on the a-file (a5 and a3,
the b-pawn having been exchanged for the second a-pawn): the upward rank
scan of evaluatePawnDoubleMoves finds the advanced pawn a3 first, while a
scan from BLACK's own back rank would find a5 first. -/
def blackDoubledBoard : EvalBoard where
  getPiece p :=
    if p.rank == (0 : Int) then backRank Color.WHITE p.file
    else if p.rank == (1 : Int) then ⟨PieceType.PAWN, Color.WHITE⟩
    else if p.rank == (3 : Int) && p.file == (0 : Int) then ⟨PieceType.PAWN, Color.BLACK⟩
    else if p.rank == (5 : Int) && p.file == (0 : Int) then ⟨PieceType.PAWN, Color.BLACK⟩
    else if p.rank == (6 : Int) then
      (if p.file == (0 : Int) || p.file == 1 then emptyPiece else ⟨PieceType.PAWN, Color.BLACK⟩)
    else if p.rank == (7 : Int) then backRank Color.BLACK p.file
    else emptyPiece
  isUnderAttack _ _ := false
  pseudoLegalMoves _ := []

/-- The pawn double-move term as the specification words it: per file, each
side's pawn is the first match scanning from that side's own back rank, so
the BLACK scan walks the ranks downward from rank 7. -/
def evaluatePawnDoubleMovesClaim (b : EvalBoard) : Int :=
  if pieceCount b < 28 then 0
  else sumL R8 fun file =>
    whitePawnFileScan b file R8 + blackPawnFileScan b file R8.reverse

/-- The first rank at which the upward scan of a file meets a pawn of the
given color. -/
def firstPawnRank (b : EvalBoard) (c : Color) (file : Int) : Option Int :=
  R8.find? fun r => isPawnOfColor (b.getPiece ⟨file, r⟩) c

/-- The pawn double-move term as the amended specification words it: per
file, BOTH sides' pawns are the first match scanning the ranks upward from
WHITE's back rank (rank 0), so for BLACK the most advanced pawn of the file
is the one examined. -/
def evaluatePawnDoubleMovesAmended (b : EvalBoard) : Int :=
  if pieceCount b < 28 then 0
  else sumL R8 fun file =>
    (match firstPawnRank b Color.WHITE file with
     | none => 0
     | some r => whitePawnMoveValue b file ⟨file, r⟩)
    + (match firstPawnRank b Color.BLACK file with
       | none => 0
       | some r => blackPawnMoveValue b file ⟨file, r⟩)

lemma whitePawnFileScan_eq_find (b : EvalBoard) (file : Int) (l : List Int) :
    whitePawnFileScan b file l =
      (match l.find? (fun r => isPawnOfColor (b.getPiece ⟨file, r⟩) Color.WHITE) with
       | none => 0
       | some r => whitePawnMoveValue b file ⟨file, r⟩) := by
  induction l with
  | nil => rfl
  | cons r rest ih =>
    rw [whitePawnFileScan]
    cases hcond : isPawnOfColor (b.getPiece ⟨file, r⟩) Color.WHITE with
    | true =>
      have hf : (r :: rest).find?
          (fun x => isPawnOfColor (b.getPiece ⟨file, x⟩) Color.WHITE) = some r := by
        simp [List.find?, hcond]
      rw [hf]
      simp only [isPawnOfColor] at hcond
      rw [if_pos hcond]
    | false =>
      have hf : (r :: rest).find?
          (fun x => isPawnOfColor (b.getPiece ⟨file, x⟩) Color.WHITE) =
          rest.find? (fun x => isPawnOfColor (b.getPiece ⟨file, x⟩) Color.WHITE) := by
        simp [List.find?, hcond]
      rw [hf]
      simp only [isPawnOfColor] at hcond
      rw [if_neg (by simp [hcond]), ih]

lemma blackPawnFileScan_eq_find (b : EvalBoard) (file : Int) (l : List Int) :
    blackPawnFileScan b file l =
      (match l.find? (fun r => isPawnOfColor (b.getPiece ⟨file, r⟩) Color.BLACK) with
       | none => 0
       | some r => blackPawnMoveValue b file ⟨file, r⟩) := by
  induction l with
  | nil => rfl
  | cons r rest ih =>
    rw [blackPawnFileScan]
    cases hcond : isPawnOfColor (b.getPiece ⟨file, r⟩) Color.BLACK with
    | true =>
      have hf : (r :: rest).find?
          (fun x => isPawnOfColor (b.getPiece ⟨file, x⟩) Color.BLACK) = some r := by
        simp [List.find?, hcond]
      rw [hf]
      simp only [isPawnOfColor] at hcond
      rw [if_pos hcond]
    | false =>
      have hf : (r :: rest).find?
          (fun x => isPawnOfColor (b.getPiece ⟨file, x⟩) Color.BLACK) =
          rest.find? (fun x => isPawnOfColor (b.getPiece ⟨file, x⟩) Color.BLACK) := by
        simp [List.find?, hcond]
      rw [hf]
      simp only [isPawnOfColor] at hcond
      rw [if_neg (by simp [hcond]), ih]

lemma whitePawnMoveValue_mirror (b : EvalBoard) (file rk : Int) :
    whitePawnMoveValue (mirrorBoard b) file ⟨file, 7 - rk⟩ =
      -(blackPawnMoveValue b file ⟨file, rk⟩) := by
  simp only [whitePawnMoveValue, blackPawnMoveValue, mb_attack, mirrorPos_mk, centerSquares,
    List.any_cons, List.any_nil, Color.opposite]
  rw [show (7 : Int) - (7 - rk) = rk from by ring,
    show decide ((7 : Int) - rk > 1) = decide (rk < 6) from by
      simp only [decide_eq_decide]; omega,
    show decide ((7 : Int) - rk > 1 + 2) = decide (rk < 6 - 2) from by
      simp only [decide_eq_decide]; omega]
  simp only [show ((file - 3).natAbs == 1 && (3 : Int) == 7 - rk + 1 ||
      ((file - 3).natAbs == 1 && (4 : Int) == 7 - rk + 1 ||
        ((file - 4).natAbs == 1 && (3 : Int) == 7 - rk + 1 ||
          ((file - 4).natAbs == 1 && (4 : Int) == 7 - rk + 1 || false)))) =
      ((file - 3).natAbs == 1 && (3 : Int) == rk - 1 ||
      ((file - 3).natAbs == 1 && (4 : Int) == rk - 1 ||
        ((file - 4).natAbs == 1 && (3 : Int) == rk - 1 ||
          ((file - 4).natAbs == 1 && (4 : Int) == rk - 1 || false)))) from by
    apply bool_eq_of_iff
    simp only [Bool.or_eq_true, Bool.and_eq_true, beq_iff_eq, Bool.false_eq_true, or_false]
    omega]
  split_ifs <;> ring

lemma blackPawnMoveValue_mirror (b : EvalBoard) (file rk : Int) :
    blackPawnMoveValue (mirrorBoard b) file ⟨file, 7 - rk⟩ =
      -(whitePawnMoveValue b file ⟨file, rk⟩) := by
  simp only [whitePawnMoveValue, blackPawnMoveValue, mb_attack, mirrorPos_mk, centerSquares,
    List.any_cons, List.any_nil, Color.opposite]
  rw [show (7 : Int) - (7 - rk) = rk from by ring,
    show decide ((7 : Int) - rk < 6) = decide (rk > 1) from by
      simp only [decide_eq_decide]; omega,
    show decide ((7 : Int) - rk < 6 - 2) = decide (rk > 1 + 2) from by
      simp only [decide_eq_decide]; omega]
  simp only [show ((file - 3).natAbs == 1 && (3 : Int) == 7 - rk - 1 ||
      ((file - 3).natAbs == 1 && (4 : Int) == 7 - rk - 1 ||
        ((file - 4).natAbs == 1 && (3 : Int) == 7 - rk - 1 ||
          ((file - 4).natAbs == 1 && (4 : Int) == 7 - rk - 1 || false)))) =
      ((file - 3).natAbs == 1 && (3 : Int) == rk + 1 ||
      ((file - 3).natAbs == 1 && (4 : Int) == rk + 1 ||
        ((file - 4).natAbs == 1 && (3 : Int) == rk + 1 ||
          ((file - 4).natAbs == 1 && (4 : Int) == rk + 1 || false)))) from by
    apply bool_eq_of_iff
    simp only [Bool.or_eq_true, Bool.and_eq_true, beq_iff_eq, Bool.false_eq_true, or_false]
    omega]
  split_ifs <;> ring

lemma sumL_neg_of {α : Type} (l : List α) (g h : α → Int)
    (hp : ∀ x ∈ l, g x = -(h x)) : sumL l g = -(sumL l h) := by
  rw [← sumL_neg]
  exact sumL_congr _ _ _ hp

lemma find?_eq_some_of_unique (p : Int → Bool) (x : Int) :
    ∀ (l : List Int), x ∈ l → p x = true → (∀ y ∈ l, p y = true → y = x) →
      l.find? p = some x := by
  intro l
  induction l with
  | nil => intro hx _ _; cases hx
  | cons a t ih =>
    intro hx hpx huniq
    cases hpa : p a with
    | true =>
      have ha : a = x := huniq a (by simp) hpa
      subst ha
      simp [List.find?, hpa]
    | false =>
      rw [show (a :: t).find? p = t.find? p from by simp [List.find?, hpa]]
      have hxt : x ∈ t := by
        rcases List.mem_cons.1 hx with h | h
        · subst h; rw [hpx] at hpa; cases hpa
        · exact h
      exact ih hxt hpx fun y hy hpy => huniq y (by simp [hy]) hpy

lemma whitePawnFileScan_mirror (b : EvalBoard) (file : Int)
    (hu : pawnUniqueOnFiles b Color.BLACK) (hf : file ∈ R8) :
    whitePawnFileScan (mirrorBoard b) file R8 = -(blackPawnFileScan b file R8) := by
  rw [whitePawnFileScan_eq_find, blackPawnFileScan_eq_find]
  have hpred : ∀ rk : Int, isPawnOfColor ((mirrorBoard b).getPiece ⟨file, rk⟩) Color.WHITE =
      isPawnOfColor (b.getPiece ⟨file, 7 - rk⟩) Color.BLACK := by
    intro rk
    simp only [isPawnOfColor, mb_getPiece, mirrorPos_mk, flipPiece_isEmpty, flipPiece_type,
      flipPiece_color, opposite_beq_white]
  cases hfind : R8.find? (fun r => isPawnOfColor (b.getPiece ⟨file, r⟩) Color.BLACK) with
  | none =>
    have hnone : R8.find?
        (fun rk => isPawnOfColor ((mirrorBoard b).getPiece ⟨file, rk⟩) Color.WHITE) = none := by
      rw [List.find?_eq_none] at hfind ⊢
      intro rk hrk
      have h7 : (7 - rk) ∈ R8 := by rw [mem_R8] at hrk ⊢; omega
      have := hfind _ h7
      simp only [hpred rk]
      simpa using this
    rw [hnone]
    norm_num
  | some r0 =>
    have hr0mem : r0 ∈ R8 := List.mem_of_find?_eq_some hfind
    have hpr0 := List.find?_some hfind
    have hN : R8.find?
        (fun rk => isPawnOfColor ((mirrorBoard b).getPiece ⟨file, rk⟩) Color.WHITE) =
        some (7 - r0) := by
      apply find?_eq_some_of_unique
      · rw [mem_R8] at hr0mem ⊢; omega
      · rw [hpred (7 - r0), show (7 : Int) - (7 - r0) = r0 from by ring]
        exact hpr0
      · intro y hy hpy
        rw [hpred y] at hpy
        have h7y : (7 - y) ∈ R8 := by rw [mem_R8] at hy ⊢; omega
        have := hu file hf (7 - y) h7y r0 hr0mem hpy hpr0
        omega
    rw [hN]
    exact whitePawnMoveValue_mirror b file r0

lemma blackPawnFileScan_mirror (b : EvalBoard) (file : Int)
    (hu : pawnUniqueOnFiles b Color.WHITE) (hf : file ∈ R8) :
    blackPawnFileScan (mirrorBoard b) file R8 = -(whitePawnFileScan b file R8) := by
  rw [whitePawnFileScan_eq_find, blackPawnFileScan_eq_find]
  have hpred : ∀ rk : Int, isPawnOfColor ((mirrorBoard b).getPiece ⟨file, rk⟩) Color.BLACK =
      isPawnOfColor (b.getPiece ⟨file, 7 - rk⟩) Color.WHITE := by
    intro rk
    simp only [isPawnOfColor, mb_getPiece, mirrorPos_mk, flipPiece_isEmpty, flipPiece_type,
      flipPiece_color, opposite_beq_black]
  cases hfind : R8.find? (fun r => isPawnOfColor (b.getPiece ⟨file, r⟩) Color.WHITE) with
  | none =>
    have hnone : R8.find?
        (fun rk => isPawnOfColor ((mirrorBoard b).getPiece ⟨file, rk⟩) Color.BLACK) = none := by
      rw [List.find?_eq_none] at hfind ⊢
      intro rk hrk
      have h7 : (7 - rk) ∈ R8 := by rw [mem_R8] at hrk ⊢; omega
      have := hfind _ h7
      simp only [hpred rk]
      simpa using this
    rw [hnone]
    norm_num
  | some r0 =>
    have hr0mem : r0 ∈ R8 := List.mem_of_find?_eq_some hfind
    have hpr0 := List.find?_some hfind
    have hN : R8.find?
        (fun rk => isPawnOfColor ((mirrorBoard b).getPiece ⟨file, rk⟩) Color.BLACK) =
        some (7 - r0) := by
      apply find?_eq_some_of_unique
      · rw [mem_R8] at hr0mem ⊢; omega
      · rw [hpred (7 - r0), show (7 : Int) - (7 - r0) = r0 from by ring]
        exact hpr0
      · intro y hy hpy
        rw [hpred y] at hpy
        have h7y : (7 - y) ∈ R8 := by rw [mem_R8] at hy ⊢; omega
        have := hu file hf (7 - y) h7y r0 hr0mem hpy hpr0
        omega
    rw [hN]
    exact blackPawnMoveValue_mirror b file r0

lemma evaluatePawnDoubleMoves_mirror (b : EvalBoard)
    (huW : pawnUniqueOnFiles b Color.WHITE) (huB : pawnUniqueOnFiles b Color.BLACK) :
    evaluatePawnDoubleMoves (mirrorBoard b) = -(evaluatePawnDoubleMoves b) := by
  unfold evaluatePawnDoubleMoves
  rw [pieceCount_mirror]
  split_ifs with h
  · norm_num
  · refine sumL_neg_of _ _ _ fun file hf => ?_
    rw [whitePawnFileScan_mirror b file huB hf, blackPawnFileScan_mirror b file huW hf]
    ring


/-- C7: the claim's reading of the pawn double-move scan is wrong for
BLACK.  On a 32-piece position with doubled BLACK pawns on the a-file (a5
and a3), the source's upward scan meets the advanced a3 pawn first and
charges the 20 penalty, while a scan from BLACK's own back rank, as the
claim words it, would meet a5 first and charge nothing. -/
theorem claim_C7_counterexample :
    28 ≤ pieceCount blackDoubledBoard ∧
    evaluatePawnDoubleMoves blackDoubledBoard = 20 ∧
    evaluatePawnDoubleMovesClaim blackDoubledBoard = 0 := by
  refine ⟨by decide, by decide, by decide⟩

/-- C9: on a board with no king of either color, the three king-dependent
heuristic terms (castling, early king movement, king pawn shield) each
contribute 0; and all three terms are insensitive to what the board reports
at invalid (off-board) positions, since two boards agreeing on every
on-board square get identical values, so no heuristic dereferences the
missing-king sentinel. -/
theorem claim_C9_kingless_safe :
    (∀ b : EvalBoard, NoKingOn b →
        evaluateCastling b = 0 ∧ evaluateEarlyKingMovement b = 0 ∧
        evaluateKingPawnShield b = 0) ∧
    (∀ b b2 : EvalBoard, agreeOnValid b b2 →
        evaluateCastling b = evaluateCastling b2 ∧
        evaluateEarlyKingMovement b = evaluateEarlyKingMovement b2 ∧
        evaluateKingPawnShield b = evaluateKingPawnShield b2) := by
  constructor
  · intro b hnk
    refine ⟨?_, ?_, ?_⟩
    · unfold evaluateCastling
      refine board2_zero _ fun f hf r hr => ?_
      have h := hnk ⟨f, r⟩ (mem_allRM_of hf hr)
      simp [castlingSquare, h]
    · unfold evaluateEarlyKingMovement
      refine board2_zero _ fun f hf r hr => ?_
      have h := hnk ⟨f, r⟩ (mem_allRM_of hf hr)
      simp [earlyKingSquare, h]
    · simp only [evaluateKingPawnShield]
      rw [findKingRM_sentinel b Color.WHITE hnk, findKingRM_sentinel b Color.BLACK hnk]
      simp [Position.isValid]
  · intro b b2 hag
    have hdev2 : developedCount2 b = developedCount2 b2 := by
      unfold developedCount2
      refine board2_congr_mem _ _ fun f hf r hr => ?_
      simp only [dev2Square]
      rw [hag ⟨f, r⟩ (mem_allRM_of hf hr)]
    refine ⟨?_, ?_, ?_⟩
    · unfold evaluateCastling
      refine board2_congr_mem _ _ fun f hf r hr => ?_
      simp only [castlingSquare]
      rw [hag ⟨f, r⟩ (mem_allRM_of hf hr), hag ⟨7, 0⟩ (by decide), hag ⟨0, 0⟩ (by decide),
        hag ⟨7, 7⟩ (by decide), hag ⟨0, 7⟩ (by decide)]
    · unfold evaluateEarlyKingMovement
      refine board2_congr_mem _ _ fun f hf r hr => ?_
      simp only [earlyKingSquare]
      rw [hag ⟨f, r⟩ (mem_allRM_of hf hr)]
    · simp only [evaluateKingPawnShield, sumL, List.map_cons, List.map_nil, List.sum_cons,
        List.sum_nil]
      rw [hdev2, findKingRM_congr b b2 Color.WHITE hag, findKingRM_congr b b2 Color.BLACK hag,
        hag ⟨5, 0⟩ (by decide), hag ⟨5, 1⟩ (by decide), hag ⟨5, 2⟩ (by decide),
        hag ⟨5, 3⟩ (by decide), hag ⟨5, 4⟩ (by decide), hag ⟨5, 5⟩ (by decide),
        hag ⟨5, 6⟩ (by decide), hag ⟨5, 7⟩ (by decide),
        hag ⟨6, 0⟩ (by decide), hag ⟨6, 1⟩ (by decide), hag ⟨6, 2⟩ (by decide),
        hag ⟨6, 3⟩ (by decide), hag ⟨6, 4⟩ (by decide),
        hag ⟨6, 5⟩ (by decide), hag ⟨6, 6⟩ (by decide), hag ⟨6, 7⟩ (by decide)]

theorem claim_C9_witness :
    (NoKingOn kinglessBoard ∧
      evaluateCastling kinglessBoard = 0 ∧ evaluateEarlyKingMovement kinglessBoard = 0 ∧
      evaluateKingPawnShield kinglessBoard = 0) ∧
    (agreeOnValid kinglessBoard offBoardKingBoard ∧
      evaluateCastling kinglessBoard = evaluateCastling offBoardKingBoard ∧
      evaluateEarlyKingMovement kinglessBoard = evaluateEarlyKingMovement offBoardKingBoard ∧
      evaluateKingPawnShield kinglessBoard = evaluateKingPawnShield offBoardKingBoard) :=
  ⟨⟨by decide, claim_C9_kingless_safe.1 kinglessBoard (by decide)⟩,
   ⟨by decide, claim_C9_kingless_safe.2 kinglessBoard offBoardKingBoard (by decide)⟩⟩

/-- C8: the claim's fully guarded reading of the knight-vulnerability
penalties is wrong.  With a WHITE knight on d4 attacked by a BLACK pawn on
c5 and every square reported as under attack, the source charges the
unguarded 25 penalty (3 centralization - 25 = -22), while the claim's
version, which guards all three penalties, keeps only the bonus 3. -/
theorem claim_C8_counterexample :
    evaluatePiecePositions cexC8 = -22 ∧ board2 (piecePositionsSquareClaim cexC8) = 3 := by
  refine ⟨by decide, by decide⟩

/-- C8 (amended): in the piece-placement term, only the 15 penalty (pawn
two squares away pushing once) requires the pawn's landing square to be
both empty and not under attack by the knight's side; the 25 penalty (pawn
already attacking) and the 20 penalty (pawn beside the knight with an empty
landing square) apply with no recapture-safety check. -/
theorem claim_C8_guard_amended (b : EvalBoard) :
    evaluatePiecePositions b = board2 (piecePositionsClaimAmended b) := by
  unfold evaluatePiecePositions
  exact board2_congr _ _ (piecePositionsSquare_eq_claimAmended b)

/-- C7 (amended): the pawn double-move term contributes 0 below 28 total
pieces; otherwise, per file, BOTH colors' scans walk the ranks upward from
WHITE's back rank and examine the first pawn of that color met, so for
BLACK it is the most advanced pawn of the file, with the 20/10/10 penalty
formula applied to the pawn found. -/
theorem claim_C7_scan_amended (b : EvalBoard) :
    evaluatePawnDoubleMoves b = evaluatePawnDoubleMovesAmended b := by
  unfold evaluatePawnDoubleMoves evaluatePawnDoubleMovesAmended
  split_ifs with h
  · rfl
  · refine sumL_congr _ _ _ ?_
    intro file _
    rw [whitePawnFileScan_eq_find, blackPawnFileScan_eq_find]
    rfl

lemma mirrorPos_invol (p : Position) : mirrorPos (mirrorPos p) = p := by
  cases p with
  | mk pf pr =>
    simp only [mirrorPos, Position.mk.injEq]
    refine ⟨trivial, by ring⟩

lemma isDefendingMove_mirror (m : EMove) (p : Position) :
    isDefendingMove ⟨mirrorPos m.src, mirrorPos m.dst⟩ p = isDefendingMove m (mirrorPos p) := by
  simp only [isDefendingMove, mirrorPos]
  have h1 : ((7 : Int) - m.dst.rank - p.rank).natAbs = (m.dst.rank - (7 - p.rank)).natAbs := by
    omega
  simp only [h1]

lemma sumL_map {α β : Type} (l : List α) (g : α → β) (h : β → Int) :
    sumL (l.map g) h = sumL l (fun x => h (g x)) := by
  simp only [sumL, List.map_map]
  rfl

lemma opposite_bne (c d : Color) : (c.opposite != d.opposite) = (c != d) := by
  cases c <;> cases d <;> rfl

lemma enemy_opposite (c : Color) :
    (if (c.opposite == Color.WHITE) = true then Color.BLACK else Color.WHITE).opposite =
      (if (c == Color.WHITE) = true then Color.BLACK else Color.WHITE) := by
  cases c <;> rfl

lemma potentialDefenderSquare_mirror (b : EvalBoard) (p : Position) (c : Color) (f r : Int) :
    potentialDefenderSquare (mirrorBoard b) p c.opposite f r =
      potentialDefenderSquare b (mirrorPos p) c f (7 - r) := by
  simp only [potentialDefenderSquare, mb_getPiece, mb_moves, mirrorPos_mk, flipPiece_isEmpty,
    flipPiece_type, flipPiece_color, List.find?_map, mb_attack, opposite_bne]
  simp only [Function.comp_def, mirrorMove, mirrorPos_invol, enemy_opposite,
    isDefendingMove_mirror]
  have h1 : ∀ fs : Bool, (c.opposite == Color.WHITE && r == (0 : Int) && fs ||
      c.opposite == Color.BLACK && r == (7 : Int) && fs) =
      (c == Color.WHITE && (7 : Int) - r == 0 && fs ||
      c == Color.BLACK && (7 : Int) - r == 7 && fs) := by
    intro fs
    apply bool_eq_of_iff
    cases c <;> cases fs
    all_goals simp [Color.opposite, beq_iff_eq]
    all_goals omega
  simp only [h1]
  cases hfind : (b.pseudoLegalMoves ⟨f, 7 - r⟩).find? (fun m =>
      isDefendingMove m (mirrorPos p) &&
        !b.isUnderAttack m.dst
          (if (c == Color.WHITE) = true then Color.BLACK else Color.WHITE)) with
  | none => rfl
  | some m0 =>
    simp only [Option.map_some', mirrorMove, mirrorPos]
    have hcent : (decide (2 ≤ m0.dst.file) && decide (m0.dst.file ≤ 5) &&
        decide (2 ≤ (7 : Int) - m0.dst.rank) && decide ((7 : Int) - m0.dst.rank ≤ 5)) =
        (decide (2 ≤ m0.dst.file) && decide (m0.dst.file ≤ 5) &&
        decide (2 ≤ m0.dst.rank) && decide (m0.dst.rank ≤ 5)) := by
      apply bool_eq_of_iff
      simp only [Bool.and_eq_true, decide_eq_true_eq]
      omega
    simp only [hcent]

lemma evaluatePotentialDefenders_mirror (b : EvalBoard) (p : Position) (c : Color) :
    evaluatePotentialDefenders (mirrorBoard b) p c.opposite =
      evaluatePotentialDefenders b (mirrorPos p) c := by
  unfold evaluatePotentialDefenders
  exact board2_reflect _ _ (potentialDefenderSquare_mirror b p c)

lemma attackerSquare_mirror (b : EvalBoard) (pos : Position) (pc ec : Color) (aF aR : Int) :
    attackerSquare (mirrorBoard b) pos pc.opposite ec.opposite aF aR =
      -(attackerSquare b (mirrorPos pos) pc ec aF (7 - aR)) := by
  simp only [attackerSquare, mb_getPiece, mb_moves, mirrorPos_mk, flipPiece_isEmpty,
    flipPiece_type, flipPiece_color, mb_attack, opposite_beq, opposite_invol, List.any_map,
    Function.comp_def, mirrorMove, mirrorPos]
  have hsw : ∀ x y : Int, ((7 : Int) - x == y) = (x == 7 - y) := by
    intro x y
    apply bool_eq_of_iff
    simp only [beq_iff_eq]
    omega
  simp only [hsw, signFor_opposite]
  split_ifs <;> ring

lemma enemy_flip (c : Color) :
    (if (c.opposite == Color.WHITE) = true then Color.BLACK else Color.WHITE) =
      (if (c == Color.WHITE) = true then Color.BLACK else Color.WHITE).opposite := by
  cases c <;> rfl

lemma undefendedPawnSquare_mirror (b : EvalBoard) (f r : Int) :
    undefendedPawnSquare (mirrorBoard b) f r = -(undefendedPawnSquare b f (7 - r)) := by
  simp only [undefendedPawnSquare, mb_getPiece, mirrorPos_mk, flipPiece_isEmpty,
    flipPiece_type, flipPiece_color, mb_attack, opposite_invol, enemy_opposite]
  rw [enemy_flip ((b.getPiece ⟨f, 7 - r⟩).color)]
  rw [evaluatePotentialDefenders_mirror b ⟨f, r⟩ ((b.getPiece ⟨f, 7 - r⟩).color)]
  have hATT := board2_neg_reflect _ _
    (attackerSquare_mirror b ⟨f, r⟩ ((b.getPiece ⟨f, 7 - r⟩).color)
      (if ((b.getPiece ⟨f, 7 - r⟩).color == Color.WHITE) = true then Color.BLACK
       else Color.WHITE))
  rw [hATT]
  simp only [mirrorPos_mk, signFor_opposite]
  split_ifs <;> ring

lemma evaluateUndefendedPawns_mirror (b : EvalBoard) :
    evaluateUndefendedPawns (mirrorBoard b) = -(evaluateUndefendedPawns b) := by
  unfold evaluateUndefendedPawns
  rw [developedCount2_mirror]
  split_ifs with h
  · norm_num
  · exact board2_neg_reflect _ _ (undefendedPawnSquare_mirror b)

lemma mem_allRM (p : Position) :
    p ∈ allRM ↔ (0 ≤ p.file ∧ p.file < 8 ∧ 0 ≤ p.rank ∧ p.rank < 8) := by
  cases p with
  | mk pf pr =>
    unfold allRM
    simp only [List.mem_flatten, List.mem_map]
    constructor
    · rintro ⟨l, ⟨rank, hrank, rfl⟩, hp⟩
      rcases List.mem_map.1 hp with ⟨file, hfile, heq⟩
      cases heq
      rw [mem_R8] at hrank hfile
      exact ⟨hfile.1, hfile.2, hrank.1, hrank.2⟩
    · rintro ⟨h1, h2, h3, h4⟩
      refine ⟨R8.map fun file => (⟨file, pr⟩ : Position), ⟨pr, (mem_R8 _).2 ⟨h3, h4⟩, rfl⟩, ?_⟩
      exact List.mem_map.2 ⟨pf, (mem_R8 _).2 ⟨h1, h2⟩, rfl⟩

lemma mem_pawnsNeedingDefense_mirror (b : EvalBoard) (c : Color) (q : Position) :
    q ∈ pawnsNeedingDefense (mirrorBoard b) c ↔
      mirrorPos q ∈ pawnsNeedingDefense b c.opposite := by
  unfold pawnsNeedingDefense
  simp only [List.mem_filter, mb_getPiece, mb_attack, flipPiece_isEmpty, flipPiece_type,
    flipPiece_color, opposite_beq, opposite_invol]
  constructor
  · rintro ⟨hmem, hcond⟩
    refine ⟨?_, hcond⟩
    rw [mem_allRM] at hmem ⊢
    simp only [mirrorPos]
    constructor
    · exact hmem.1
    · refine ⟨hmem.2.1, by omega, by omega⟩
  · rintro ⟨hmem, hcond⟩
    refine ⟨?_, hcond⟩
    rw [mem_allRM] at hmem ⊢
    simp only [mirrorPos] at hmem
    exact ⟨hmem.1, hmem.2.1, by omega, by omega⟩

lemma pawnsNeedingDefense_isEmpty_mirror (b : EvalBoard) (c : Color) :
    (pawnsNeedingDefense (mirrorBoard b) c).isEmpty =
      (pawnsNeedingDefense b c.opposite).isEmpty := by
  apply bool_eq_of_iff
  simp only [List.isEmpty_iff, List.eq_nil_iff_forall_not_mem]
  constructor
  · intro h q hq
    have h2 : mirrorPos (mirrorPos q) ∈ pawnsNeedingDefense b c.opposite := by
      rw [mirrorPos_invol]
      exact hq
    exact h (mirrorPos q) ((mem_pawnsNeedingDefense_mirror b c (mirrorPos q)).2 h2)
  · intro h q hq
    exact h (mirrorPos q) ((mem_pawnsNeedingDefense_mirror b c q).1 hq)

lemma pawnsNeedingDefense_any_mirror (b : EvalBoard) (c : Color) (m : EMove) :
    ((pawnsNeedingDefense (mirrorBoard b) c).any fun pp =>
        isDefendingMove ⟨mirrorPos m.src, mirrorPos m.dst⟩ pp) =
      ((pawnsNeedingDefense b c.opposite).any fun pp => isDefendingMove m pp) := by
  apply bool_eq_of_iff
  simp only [List.any_eq_true]
  constructor
  · rintro ⟨pp, hpp, hd⟩
    rw [isDefendingMove_mirror] at hd
    exact ⟨mirrorPos pp, (mem_pawnsNeedingDefense_mirror b c pp).1 hpp, hd⟩
  · rintro ⟨pp, hpp, hd⟩
    refine ⟨mirrorPos pp, ?_, ?_⟩
    · refine (mem_pawnsNeedingDefense_mirror b c (mirrorPos pp)).2 ?_
      rw [mirrorPos_invol]
      exact hpp
    · rw [isDefendingMove_mirror, mirrorPos_invol]
      exact hd

lemma opposite_white : Color.WHITE.opposite = Color.BLACK := rfl

lemma opposite_black : Color.BLACK.opposite = Color.WHITE := rfl

lemma mirrorPos_file (p : Position) : (mirrorPos p).file = p.file := rfl

lemma mirrorPos_rank (p : Position) : (mirrorPos p).rank = 7 - p.rank := rfl

lemma minorDefWhite_mirror (b : EvalBoard) (f r : Int) :
    minorDefWhiteSquare (mirrorBoard b) (pawnsNeedingDefense (mirrorBoard b) Color.WHITE) f r =
      -(minorDefBlackSquare b (pawnsNeedingDefense b Color.BLACK) f (7 - r)) := by
  simp only [minorDefWhiteSquare, minorDefBlackSquare, mb_getPiece, mb_moves, mirrorPos_mk,
    flipPiece_isEmpty, flipPiece_type, flipPiece_color, opposite_beq_white, sumL_map,
    mirrorMove, mb_attack, mirrorPos_invol, opposite_white, opposite_black,
    pawnsNeedingDefense_isEmpty_mirror, pawnsNeedingDefense_any_mirror]
  have h7 : ((7 : Int) - r == 7) = ((r : Int) == 0) := by
    apply bool_eq_of_iff
    simp only [beq_iff_eq]
    omega
  have hcent : ∀ x y : Int, (decide (2 ≤ x) && decide (x ≤ 5) && decide (2 ≤ (7 : Int) - y) &&
      decide ((7 : Int) - y ≤ 5)) = (decide (2 ≤ x) && decide (x ≤ 5) && decide (2 ≤ y) &&
      decide (y ≤ 5)) := by
    intro x y
    apply bool_eq_of_iff
    simp only [Bool.and_eq_true, decide_eq_true_eq]
    omega
  simp only [h7, hcent, mirrorPos_file, mirrorPos_rank]
  split_ifs
  all_goals try norm_num
  all_goals refine sumL_neg_of _ _ _ fun m _ => ?_
  all_goals split_ifs
  all_goals ring

lemma minorDefBlack_mirror (b : EvalBoard) (f r : Int) :
    minorDefBlackSquare (mirrorBoard b) (pawnsNeedingDefense (mirrorBoard b) Color.BLACK) f r =
      -(minorDefWhiteSquare b (pawnsNeedingDefense b Color.WHITE) f (7 - r)) := by
  simp only [minorDefWhiteSquare, minorDefBlackSquare, mb_getPiece, mb_moves, mirrorPos_mk,
    flipPiece_isEmpty, flipPiece_type, flipPiece_color, opposite_beq_black, sumL_map,
    mirrorMove, mb_attack, mirrorPos_invol, opposite_white, opposite_black,
    pawnsNeedingDefense_isEmpty_mirror, pawnsNeedingDefense_any_mirror]
  have h7 : ((7 : Int) - r == 0) = ((r : Int) == 7) := by
    apply bool_eq_of_iff
    simp only [beq_iff_eq]
    omega
  have hcent : ∀ x y : Int, (decide (2 ≤ x) && decide (x ≤ 5) && decide (2 ≤ (7 : Int) - y) &&
      decide ((7 : Int) - y ≤ 5)) = (decide (2 ≤ x) && decide (x ≤ 5) && decide (2 ≤ y) &&
      decide (y ≤ 5)) := by
    intro x y
    apply bool_eq_of_iff
    simp only [Bool.and_eq_true, decide_eq_true_eq]
    omega
  simp only [h7, hcent, mirrorPos_file, mirrorPos_rank]
  split_ifs
  all_goals try norm_num
  all_goals refine sumL_neg_of _ _ _ fun m _ => ?_
  all_goals split_ifs
  all_goals ring

lemma evaluateMinorPieceDevelopmentForDefense_mirror (b : EvalBoard) :
    evaluateMinorPieceDevelopmentForDefense (mirrorBoard b) =
      -(evaluateMinorPieceDevelopmentForDefense b) := by
  unfold evaluateMinorPieceDevelopmentForDefense
  rw [developedCount2_mirror]
  split_ifs with h
  · norm_num
  · rw [board2_neg_reflect _ _ (minorDefWhite_mirror b),
      board2_neg_reflect _ _ (minorDefBlack_mirror b)]
    ring


lemma isKingOfColor_mb (b : EvalBoard) (p : Position) (c : Color) :
    isKingOfColor ((mirrorBoard b).getPiece p) c =
      isKingOfColor (b.getPiece (mirrorPos p)) c.opposite := by
  simp only [isKingOfColor, mb_getPiece, flipPiece_isEmpty, flipPiece_type, flipPiece_color,
    opposite_beq]

lemma findKing_foldl_stay (b : EvalBoard) (c : Color) :
    ∀ (l : List Position) (x : Position),
      (∀ y ∈ l, isKingOfColor (b.getPiece y) c = true → y = x) →
      l.foldl (fun acc p =>
        let piece := b.getPiece p
        if !piece.isEmpty && piece.type == PieceType.KING && piece.color == c then p else acc)
        x = x := by
  intro l
  induction l with
  | nil => intro x _; rfl
  | cons a t ih =>
    intro x hl
    rw [List.foldl_cons]
    cases ha : isKingOfColor (b.getPiece a) c with
    | true =>
      have : a = x := hl a (by simp) ha
      subst this
      simp only [isKingOfColor] at ha
      simp only [ha, if_true]
      exact ih a fun y hy hky => hl y (by simp [hy]) hky
    | false =>
      simp only [isKingOfColor] at ha
      simp only [ha, Bool.false_eq_true, if_false]
      exact ih x fun y hy hky => hl y (by simp [hy]) hky

lemma findKing_foldl_last (b : EvalBoard) (c : Color) :
    ∀ (l : List Position) (x : Position) (acc : Position),
      (∀ y ∈ l, isKingOfColor (b.getPiece y) c = true → y = x) →
      x ∈ l → isKingOfColor (b.getPiece x) c = true →
      l.foldl (fun acc p =>
        let piece := b.getPiece p
        if !piece.isEmpty && piece.type == PieceType.KING && piece.color == c then p else acc)
        acc = x := by
  intro l
  induction l with
  | nil => intro x acc _ hx _; cases hx
  | cons a t ih =>
    intro x acc hl hx hkx
    rw [List.foldl_cons]
    cases ha : isKingOfColor (b.getPiece a) c with
    | true =>
      have hax : a = x := hl a (by simp) ha
      subst hax
      simp only [isKingOfColor] at ha
      simp only [ha, if_true]
      exact findKing_foldl_stay b c t a fun y hy hky => hl y (by simp [hy]) hky
    | false =>
      simp only [isKingOfColor] at ha
      simp only [ha, Bool.false_eq_true, if_false]
      have hxt : x ∈ t := by
        rcases List.mem_cons.1 hx with h | h
        · subst h
          simp only [isKingOfColor] at hkx
          rw [hkx] at ha
          cases ha
        · exact h
      exact ih x acc (fun y hy hky => hl y (by simp [hy]) hky) hxt hkx

lemma findKingRM_eq_of_unique (b : EvalBoard) (c : Color) (x : Position)
    (hx : x ∈ allRM) (hkx : isKingOfColor (b.getPiece x) c = true)
    (huniq : ∀ y ∈ allRM, isKingOfColor (b.getPiece y) c = true → y = x) :
    findKingRM b c = x := by
  unfold findKingRM
  exact findKing_foldl_last b c allRM x ⟨-1, -1⟩ huniq hx hkx

lemma findKingRM_none (b : EvalBoard) (c : Color)
    (h : ∀ p ∈ allRM, isKingOfColor (b.getPiece p) c = false) :
    findKingRM b c = ⟨-1, -1⟩ := by
  unfold findKingRM
  have aux : ∀ (l : List Position), (∀ p ∈ l, isKingOfColor (b.getPiece p) c = false) →
      ∀ acc : Position,
      l.foldl (fun acc p =>
        let piece := b.getPiece p
        if !piece.isEmpty && piece.type == PieceType.KING && piece.color == c then p else acc)
        acc = acc := by
    intro l
    induction l with
    | nil => intro _ acc; rfl
    | cons a t ih =>
      intro hl acc
      rw [List.foldl_cons]
      have ha := hl a (by simp)
      simp only [isKingOfColor] at ha
      simp only [ha, Bool.false_eq_true, if_false]
      exact ih (fun p hp => hl p (by simp [hp])) acc
  exact aux allRM h ⟨-1, -1⟩


lemma findKingRM_mb_some (b : EvalBoard) (c : Color) (x : Position)
    (hx : x ∈ allRM) (hkx : isKingOfColor (b.getPiece x) c.opposite = true)
    (hu : kingUnique b c.opposite) :
    findKingRM (mirrorBoard b) c = mirrorPos x := by
  apply findKingRM_eq_of_unique
  · rw [mem_allRM] at hx ⊢
    simp only [mirrorPos_file, mirrorPos_rank]
    exact ⟨hx.1, hx.2.1, by omega, by omega⟩
  · rw [isKingOfColor_mb, mirrorPos_invol]
    exact hkx
  · intro y hy hky
    rw [isKingOfColor_mb] at hky
    have hmy : mirrorPos y ∈ allRM := by
      rw [mem_allRM] at hy ⊢
      simp only [mirrorPos_file, mirrorPos_rank]
      exact ⟨hy.1, hy.2.1, by omega, by omega⟩
    have hyx := hu (mirrorPos y) hmy x hx hky hkx
    rw [← hyx, mirrorPos_invol]

lemma findKingRM_mb_none (b : EvalBoard) (c : Color)
    (h : ∀ p ∈ allRM, isKingOfColor (b.getPiece p) c.opposite = false) :
    findKingRM (mirrorBoard b) c = ⟨-1, -1⟩ := by
  apply findKingRM_none
  intro p hp
  rw [isKingOfColor_mb]
  apply h
  rw [mem_allRM] at hp ⊢
  simp only [mirrorPos_file, mirrorPos_rank]
  exact ⟨hp.1, hp.2.1, by omega, by omega⟩

set_option maxHeartbeats 1600000 in
lemma evaluateKingPawnShield_mirror (b : EvalBoard)
    (kW : kingUnique b Color.WHITE) (kB : kingUnique b Color.BLACK) :
    evaluateKingPawnShield (mirrorBoard b) = -(evaluateKingPawnShield b) := by
  simp only [evaluateKingPawnShield]
  rw [developedCount2_mirror]
  by_cases hgate : developedCount2 b > 6
  · rw [if_pos hgate, if_pos hgate]
    norm_num
  · rw [if_neg hgate, if_neg hgate]
    have hcondW : ((findKingRM (mirrorBoard b) Color.WHITE).isValid &&
        (findKingRM (mirrorBoard b) Color.WHITE).rank == (0 : Int) &&
        (findKingRM (mirrorBoard b) Color.WHITE).file == (6 : Int)) =
        ((findKingRM b Color.BLACK).isValid &&
        (findKingRM b Color.BLACK).rank == (7 : Int) &&
        (findKingRM b Color.BLACK).file == (6 : Int)) := by
      by_cases hex : ∃ q ∈ allRM, isKingOfColor (b.getPiece q) Color.BLACK = true
      · obtain ⟨q, hq, hk⟩ := hex
        have h1 : findKingRM (mirrorBoard b) Color.WHITE = mirrorPos q :=
          findKingRM_mb_some b Color.WHITE q hq hk kB
        have h2 : findKingRM b Color.BLACK = q :=
          findKingRM_eq_of_unique b Color.BLACK q hq hk fun y hy hky => kB y hy q hq hky hk
        rw [h1, h2]
        apply bool_eq_of_iff
        simp only [mirrorPos_file, mirrorPos_rank, Position.isValid, Bool.and_eq_true,
          decide_eq_true_eq, beq_iff_eq]
        omega
      · have hall : ∀ p ∈ allRM, isKingOfColor (b.getPiece p) Color.BLACK = false := by
          intro p hp
          cases hk : isKingOfColor (b.getPiece p) Color.BLACK with
          | false => rfl
          | true => exact absurd ⟨p, hp, hk⟩ hex
        have h1 : findKingRM (mirrorBoard b) Color.WHITE = ⟨-1, -1⟩ :=
          findKingRM_mb_none b Color.WHITE hall
        have h2 : findKingRM b Color.BLACK = ⟨-1, -1⟩ := findKingRM_none b Color.BLACK hall
        rw [h1, h2]
        decide
    have hcondB : ((findKingRM (mirrorBoard b) Color.BLACK).isValid &&
        (findKingRM (mirrorBoard b) Color.BLACK).rank == (7 : Int) &&
        (findKingRM (mirrorBoard b) Color.BLACK).file == (6 : Int)) =
        ((findKingRM b Color.WHITE).isValid &&
        (findKingRM b Color.WHITE).rank == (0 : Int) &&
        (findKingRM b Color.WHITE).file == (6 : Int)) := by
      by_cases hex : ∃ q ∈ allRM, isKingOfColor (b.getPiece q) Color.WHITE = true
      · obtain ⟨q, hq, hk⟩ := hex
        have h1 : findKingRM (mirrorBoard b) Color.BLACK = mirrorPos q :=
          findKingRM_mb_some b Color.BLACK q hq hk kW
        have h2 : findKingRM b Color.WHITE = q :=
          findKingRM_eq_of_unique b Color.WHITE q hq hk fun y hy hky => kW y hy q hq hky hk
        rw [h1, h2]
        apply bool_eq_of_iff
        simp only [mirrorPos_file, mirrorPos_rank, Position.isValid, Bool.and_eq_true,
          decide_eq_true_eq, beq_iff_eq]
        omega
      · have hall : ∀ p ∈ allRM, isKingOfColor (b.getPiece p) Color.WHITE = false := by
          intro p hp
          cases hk : isKingOfColor (b.getPiece p) Color.WHITE with
          | false => rfl
          | true => exact absurd ⟨p, hp, hk⟩ hex
        have h1 : findKingRM (mirrorBoard b) Color.BLACK = ⟨-1, -1⟩ :=
          findKingRM_mb_none b Color.BLACK hall
        have h2 : findKingRM b Color.WHITE = ⟨-1, -1⟩ := findKingRM_none b Color.WHITE hall
        rw [h1, h2]
        decide
    rw [hcondW, hcondB]
    have hn : ∀ (p : Prop) (inst : Decidable p) (v : Int),
        (@ite Int p inst (-v) 0) = -(@ite Int p inst v 0) := by
      intro p inst v
      split_ifs <;> ring
    norm_num [sumL, mb_getPiece, mirrorPos_mk, flipPiece_isEmpty, flipPiece_type,
      flipPiece_color, opposite_beq_white, opposite_beq_black]
    simp only [hn, ← neg_add]
    ring

/-- C5: the claim's unconditional sign symmetry fails.  On a legal-looking
32-piece position with doubled WHITE pawns on the a-file (a2 and a6), the
first-match pawn scan of evaluatePawnDoubleMoves walks the ranks upward for
both colors and so examines a2 on the original board but the advanced
mirrored pawn a3 on the color-mirrored board, charging the double-move
penalty on one side only: the evaluations are 0 and 20, not negations of
one another. -/
theorem claim_C5_counterexample :
    evaluate V0 doubledBoard = 0 ∧ evaluate V0 (mirrorBoard doubledBoard) = 20 ∧
    evaluate V0 (mirrorBoard doubledBoard) ≠ -(evaluate V0 doubledBoard) := by
  refine ⟨by decide, by decide, by decide⟩

/-- C5 (amended): on positions with at most one pawn of each color per file
and at most one king of each color - every position reachable from the
standard start - evaluating the color-mirrored counterpart negates the
evaluation, each heuristic term obeying the white-minus-black sign
convention. -/
theorem claim_C5_sign_symmetry_amended (V : PieceType → Int) (b : EvalBoard)
    (huW : pawnUniqueOnFiles b Color.WHITE) (huB : pawnUniqueOnFiles b Color.BLACK)
    (kW : kingUnique b Color.WHITE) (kB : kingUnique b Color.BLACK) :
    evaluate V (mirrorBoard b) = -(evaluate V b) := by
  unfold evaluate
  rw [evaluateMaterial_mirror, evaluateCenterControl_mirror, evaluatePiecePositions_mirror,
    evaluateEarlyQueenDevelopment_mirror, evaluatePieceDevelopment_mirror,
    evaluateEarlyKingMovement_mirror, evaluateCastling_mirror,
    evaluatePawnDoubleMoves_mirror b huW huB, evaluateUndefendedPawns_mirror,
    evaluateKingPawnShield_mirror b kW kB, evaluateMinorPieceDevelopmentForDefense_mirror,
    evaluateEarlyFPawnMoves_mirror]
  ring

set_option maxRecDepth 40000 in
theorem claim_C5_witness :
    (pawnUniqueOnFiles startBoard Color.WHITE ∧ pawnUniqueOnFiles startBoard Color.BLACK ∧
      kingUnique startBoard Color.WHITE ∧ kingUnique startBoard Color.BLACK) ∧
    evaluate V0 (mirrorBoard startBoard) = -(evaluate V0 startBoard) :=
  ⟨⟨by decide, by decide, by decide, by decide⟩,
   claim_C5_sign_symmetry_amended V0 startBoard (by decide) (by decide) (by decide)
     (by decide)⟩

end Chess
